import Mathlib

set_option maxRecDepth 8000

/-!
Verification of the fastpbkdf2 Go package: an optimized PBKDF2-HMAC-SHA1
key-derivation engine.  Machine words (Go uint32) are modelled as Nat with
explicit reduction modulo 2^32 where overflow matters; byte buffers are
lists of Nat (each element a byte value).  Go functions that mutate buffers
in place are modelled as functions returning the new buffer contents.
-/

/-- Left rotation of a 32-bit word by n bits, as Go computes it:
a left shift truncated to 32 bits, OR-ed with a right shift by 32-n
(the pattern x shl n or x shr (32-n) used throughout sha1_block_generic). -/
def rotl32 (x n : Nat) : Nat := ((x <<< n) % 2 ^ 32) ||| (x >>> (32 - n))

/-- Go readUint32: big-endian load of 4 bytes into a word. -/
def readUint32 (x : List Nat) : Nat :=
  ((x.getD 0 0) <<< 24) ||| ((x.getD 1 0) <<< 16) ||| ((x.getD 2 0) <<< 8) ||| x.getD 3 0

/-- Go putUint32: big-endian store of a word as 4 bytes
(byte conversion in Go truncates, hence the mod 256). -/
def putUint32 (s : Nat) : List Nat :=
  [(s >>> 24) % 256, (s >>> 16) % 256, (s >>> 8) % 256, s % 256]

/-- SHA-1 round function for steps 0-19 (Go: b and c or (not b) and d;
complement of a uint32 is XOR with 0xffffffff). -/
def sha1_ch (b c d : Nat) : Nat := b &&& c ||| (b ^^^ 0xffffffff) &&& d

/-- SHA-1 round function for steps 20-39 and 60-79 (Go: b xor c xor d). -/
def sha1_parity (b c d : Nat) : Nat := b ^^^ c ^^^ d

/-- SHA-1 round function for steps 40-59 exactly as sha1_block_generic
computes it: ((b or c) and d) or (b and c). -/
def sha1_maj_go (b c d : Nat) : Nat := (b ||| c) &&& d ||| b &&& c

/-- The circular message-schedule update of sha1_block_generic: for step i,
w[i mod 16] := rotl1(w[(i-3) mod 16] xor w[(i-8) mod 16] xor w[(i-14) mod 16]
xor w[i mod 16]) (Go writes the index masks as i and 0xf, which equals
i mod 16). -/
def sha1_w_update (w : List Nat) (i : Nat) : List Nat :=
  let tmp := w.getD ((i - 3) % 16) 0 ^^^ w.getD ((i - 8) % 16) 0 ^^^
             w.getD ((i - 14) % 16) 0 ^^^ w.getD (i % 16) 0
  w.set (i % 16) (rotl32 tmp 1)

/-- Working state of the sha1_block_generic loops: the five registers
a b c d e plus the 16-word circular schedule buffer w. -/
structure sha1Regs where
  a : Nat
  b : Nat
  c : Nat
  d : Nat
  e : Nat
  w : List Nat

/-- One loop iteration of sha1_block_generic, parameterized by the round
constant K, the round function f and whether the schedule word is computed
(false only for the first 16 steps).  The register update is
t := rotl5(a) + f(b,c,d) + e + w[i mod 16] + K (mod 2^32);
a,b,c,d,e := t, a, rotl30(b), c, d. -/
def sha1_round (K : Nat) (f : Nat → Nat → Nat → Nat) (upd : Bool)
    (s : sha1Regs) (i : Nat) : sha1Regs :=
  let w := if upd then sha1_w_update s.w i else s.w
  let t := (rotl32 s.a 5 + f s.b s.c s.d + s.e + w.getD (i % 16) 0 + K) % 2 ^ 32
  ⟨t, s.a, rotl32 s.b 30, s.c, s.d, w⟩

/-- sha1_block_generic (the portable SHA-1 compression step): reads the
160-bit input state from init (first 5 words), the 512-bit block from src
(16 words), runs the four rounds of 20 steps (the first loop is split
16 + 4 in the source because the first 16 steps use the message words
directly), adds the input state back modulo 2^32, and writes only the
first 5 words of dst, leaving dst words 5..15 unchanged. -/
def sha1_block_generic (dst init src : List Nat) : List Nat :=
  let h0 := init.getD 0 0
  let h1 := init.getD 1 0
  let h2 := init.getD 2 0
  let h3 := init.getD 3 0
  let h4 := init.getD 4 0
  let s0 : sha1Regs := ⟨h0, h1, h2, h3, h4, src⟩
  let s1 := (List.range' 0 16).foldl (sha1_round 0x5A827999 sha1_ch false) s0
  let s2 := (List.range' 16 4).foldl (sha1_round 0x5A827999 sha1_ch true) s1
  let s3 := (List.range' 20 20).foldl (sha1_round 0x6ED9EBA1 sha1_parity true) s2
  let s4 := (List.range' 40 20).foldl (sha1_round 0x8F1BBCDC sha1_maj_go true) s3
  let s5 := (List.range' 60 20).foldl (sha1_round 0xCA62C1D6 sha1_parity true) s4
  [(h0 + s5.a) % 2 ^ 32, (h1 + s5.b) % 2 ^ 32, (h2 + s5.c) % 2 ^ 32,
   (h3 + s5.d) % 2 ^ 32, (h4 + s5.e) % 2 ^ 32] ++ dst.drop 5

/-- sha1_block: the dispatching wrapper.  The architecture-accelerated
variant (blockAMD64) is specified to be bit-identical to the generic
version, so it is modelled by the generic compression step. -/
def sha1_block (dst init src : List Nat) : List Nat :=
  sha1_block_generic dst init src

/-- The pure 160-bit compression result (the five state words written by
sha1_block_generic). -/
def sha1_compress (init src : List Nat) : List Nat :=
  sha1_block_generic [] init src

/-- sha1_init: writes the SHA-1 standard initial state into the first five
words of a block. -/
def sha1_init (b : List Nat) : List Nat :=
  0x67452301 :: 0xEFCDAB89 :: 0x98BADCFE :: 0x10325476 :: 0xC3D2E1F0 :: b.drop 5

/-- The five-word SHA-1 initial state. -/
def sha1_IV : List Nat := [0x67452301, 0xEFCDAB89, 0x98BADCFE, 0x10325476, 0xC3D2E1F0]

/-- sha1_pad: given a 64-byte buffer whose first (len mod 64) bytes hold the
message tail, append the 0x80 marker, zero fill, and the 64-bit big-endian
bit length in bytes 56..63.  Functional rendering of the in-place Go code,
faithful whenever len mod 64 is at most 55, which holds at every call site
(the iteration loop always passes len = 84, and the test helper requires
len at most 55). -/
def sha1_pad (b : List Nat) (len : Nat) : List Nat :=
  let nx := len % 64
  let bits := (len * 8) % 2 ^ 64
  b.take nx ++ [0x80] ++ List.replicate (55 - nx) 0 ++
    putUint32 ((bits >>> 32) % 2 ^ 32) ++ putUint32 (bits % 2 ^ 32)

/-- sha1_input: load a 64-byte buffer into the 16 words of a block,
big-endian. -/
def sha1_input (b : List Nat) : List Nat :=
  (List.range 16).map (fun i => readUint32 (b.drop (i * 4)))

/-- sha1_output: store the first 5 words of a block as 20 big-endian
bytes. -/
def sha1_output (bl : List Nat) : List Nat :=
  ((bl.take 5).map putUint32).flatten

/-- The five words loaded big-endian from a 20-byte buffer (the loop
tmp.h[i] = readUint32(T[i*4:]) in the key-derivation function). -/
def readW5 (T : List Nat) : List Nat :=
  (List.range 5).map (fun i => readUint32 (T.drop (i * 4)))

/-- Number of zero bytes SHA-1 padding inserts for a message of the given
length. -/
def sha1_pad_zeros (len : Nat) : Nat := (64 - (len + 9) % 64) % 64

/-- 64-byte chunking of a byte list, given the number of chunks. -/
def toBlocksN : Nat → List Nat → List (List Nat)
  | 0, _ => []
  | n + 1, bs => bs.take 64 :: toBlocksN n (bs.drop 64)

/-- Modelled from the spec: Go's crypto/sha1.Sum (the library hash used for
over-long HMAC keys, not part of this repository's sources).  Standard
FIPS 180 SHA-1 of an arbitrary message: append 0x80, zero bytes and the
64-bit big-endian bit length to a multiple of 64 bytes, then iterate the
Compression Step from the standard initial state and serialize the final
160-bit state big-endian. -/
def sha1_Sum (msg : List Nat) : List Nat :=
  let bits := (8 * msg.length) % 2 ^ 64
  let padded := msg ++ [0x80] ++ List.replicate (sha1_pad_zeros msg.length) 0 ++
    putUint32 ((bits >>> 32) % 2 ^ 32) ++ putUint32 (bits % 2 ^ 32)
  sha1_output
    ((toBlocksN (padded.length / 64) padded).foldl
      (fun st blk => sha1_compress st (sha1_input blk)) sha1_IV)

/-- Modelled from the spec: Go's crypto/hmac with sha1.New (the streaming
PRF used for the first HMAC output of each block, not part of this
repository's sources).  The standard two-pass HMAC construction: a key
longer than one block is replaced by its digest, the key is zero padded to
64 bytes, and the result is H(key xor opad || H(key xor ipad || msg)). -/
def hmac_sha1 (key msg : List Nat) : List Nat :=
  let k := if key.length > 64 then sha1_Sum key else key
  let k0 := k ++ List.replicate (64 - k.length) 0
  sha1_Sum ((k0.map (fun x => x ^^^ 0x5c)) ++
    sha1_Sum ((k0.map (fun x => x ^^^ 0x36)) ++ msg))

/-- hmac_init: the HMAC state precomputation.  A key longer than 64 bytes
is replaced by its SHA-1 digest; ipad and opad are the zero-padded key
XOR-ed with 0x36 resp. 0x5c bytes; each is loaded into a block and
compressed once from the standard initial state (writing the first five
words of the block in place, so words 5..15 of the returned blocks still
hold the pad words, which later calls never read). -/
def hmac_init (key : List Nat) : List Nat × List Nat :=
  let key := if key.length > 64 then sha1_Sum key else key
  let ipad := (key ++ List.replicate (64 - key.length) 0).map (fun x => x ^^^ 0x36)
  let opad := (key ++ List.replicate (64 - key.length) 0).map (fun x => x ^^^ 0x5c)
  let init := sha1_init (List.replicate 16 0)
  let inner := sha1_input ipad
  let outer := sha1_input opad
  (sha1_block inner init inner, sha1_block outer init outer)

/-- The inner loop of the key-derivation function, run once per n in
2..iter: U := sha1_block(U, inner, U); U := sha1_block(U, outer, U);
tmp ^= U (component-wise over the 5 words).  The first argument counts the
remaining iterations. -/
def pbkdf2_iter (inner outer : List Nat) :
    Nat → List Nat × List Nat → List Nat × List Nat
  | 0, s => s
  | n + 1, (tmp, U) =>
    let U1 := sha1_block U inner U
    let U2 := sha1_block U1 outer U1
    let tmp2 := [tmp.getD 0 0 ^^^ U2.getD 0 0, tmp.getD 1 0 ^^^ U2.getD 1 0,
                 tmp.getD 2 0 ^^^ U2.getD 2 0, tmp.getD 3 0 ^^^ U2.getD 3 0,
                 tmp.getD 4 0 ^^^ U2.getD 4 0]
    pbkdf2_iter inner outer n (tmp2, U2)

/-- The body of the per-output-block loop of the derivation function SHA1:
T := PRF(password, salt || BE32(blockIdx)) (via the streaming HMAC);
tmp := the five words of T; U := the block holding T padded as an 84-byte
message (64-byte key block plus 20-byte digest); then iter-1 inner
iterations; finally tmp is serialized as this block's 20 output bytes. -/
def pbkdf2_block (inner outer password salt : List Nat)
    (blockIdx iter : Nat) : List Nat :=
  let T := hmac_sha1 password (salt ++ putUint32 (blockIdx % 2 ^ 32))
  let tmp := readW5 T
  let U := sha1_input (sha1_pad T (64 + 20))
  let r := pbkdf2_iter inner outer (iter - 1) (tmp, U)
  sha1_output r.1

/-- The exported derivation function SHA1(password, salt, iter, keyLen)
(Go int parameters modelled as Int).  numBlocks = (keyLen + 19) div 20
with Go's truncating division; hmac_init runs once; the block loop runs
for block = 1..numBlocks appending 20 bytes each; the final dk[:keyLen]
is a runtime panic (modelled as none) when keyLen is negative, and
otherwise truncates to keyLen bytes. -/
def SHA1 (password salt : List Nat) (iter keyLen : Int) : Option (List Nat) :=
  let numBlocks := (keyLen + 19).tdiv 20
  let inner := (hmac_init password).1
  let outer := (hmac_init password).2
  let dk := (List.range numBlocks.toNat).foldl
    (fun dk bi => dk ++ pbkdf2_block inner outer password salt (bi + 1) iter.toNat) []
  if keyLen < 0 then none else some (dk.take keyLen.toNat)

/-! ### Byte and word groundwork -/

theorem byte_testBit {b : Nat} (hb : b < 256) {i : Nat} (hi : 8 ≤ i) :
    b.testBit i = false := by
  apply Nat.testBit_lt_two_pow
  calc b < 256 := hb
    _ = 2 ^ 8 := by norm_num
    _ ≤ 2 ^ i := Nat.pow_le_pow_right (by norm_num) hi

theorem readUint32_eq {b0 b1 b2 b3 : Nat} (r : List Nat)
    (h0 : b0 < 256) (h1 : b1 < 256) (h2 : b2 < 256) (h3 : b3 < 256) :
    readUint32 (b0 :: b1 :: b2 :: b3 :: r) =
      2 ^ 8 * (2 ^ 8 * (2 ^ 8 * b0 + b1) + b2) + b3 := by
  have e256 : (256 : Nat) = 2 ^ 8 := by norm_num
  rw [e256] at h0 h1 h2 h3
  have hb1 : 2 ^ 8 * b0 + b1 < 2 ^ 16 := by omega
  have hb2 : 2 ^ 8 * (2 ^ 8 * b0 + b1) + b2 < 2 ^ 24 := by omega
  apply Nat.eq_of_testBit_eq
  intro i
  simp only [readUint32, List.getD_cons_zero, List.getD_cons_succ,
    Nat.testBit_or, Nat.testBit_shiftLeft]
  rw [show (2 ^ 8 * (2 ^ 8 * (2 ^ 8 * b0 + b1) + b2) + b3)
        = 2 ^ 8 * (2 ^ 8 * (2 ^ 8 * b0 + b1) + b2) + b3 from rfl,
    Nat.testBit_mul_pow_two_add _ h3,
    show (2 ^ 8 * (2 ^ 8 * b0 + b1) + b2) = 2 ^ 8 * (2 ^ 8 * b0 + b1) + b2 from rfl]
  by_cases c8 : i < 8
  · have : ¬ 24 ≤ i := by omega
    have : ¬ 16 ≤ i := by omega
    have : ¬ 8 ≤ i := by omega
    simp_all
  · by_cases c16 : i < 16
    · rw [if_neg c8, Nat.testBit_mul_pow_two_add _ h2, if_pos (by omega : i - 8 < 8)]
      have e1 : ¬ 24 ≤ i := by omega
      have e2 : ¬ 16 ≤ i := by omega
      have e3 : 8 ≤ i := by omega
      simp [e1, e2, e3, byte_testBit h3 e3]
    · by_cases c24 : i < 24
      · rw [if_neg c8, Nat.testBit_mul_pow_two_add _ h2, if_neg (by omega : ¬ i - 8 < 8),
          Nat.testBit_mul_pow_two_add _ h1, if_pos (by omega : i - 8 - 8 < 8)]
        have e1 : ¬ 24 ≤ i := by omega
        have e2 : 16 ≤ i := by omega
        have e3 : 8 ≤ i := by omega
        have e4 : i - 8 - 8 = i - 16 := by omega
        simp [e1, e2, e3, e4, byte_testBit h3 (by omega : 8 ≤ i),
          byte_testBit h2 (by omega : 8 ≤ i - 8)]
      · rw [if_neg c8, Nat.testBit_mul_pow_two_add _ h2, if_neg (by omega : ¬ i - 8 < 8),
          Nat.testBit_mul_pow_two_add _ h1, if_neg (by omega : ¬ i - 8 - 8 < 8)]
        have e1 : 24 ≤ i := by omega
        have e2 : 16 ≤ i := by omega
        have e3 : 8 ≤ i := by omega
        have e4 : i - 8 - 8 - 8 = i - 24 := by omega
        simp [e1, e2, e3, e4, byte_testBit h3 (by omega : 8 ≤ i),
          byte_testBit h2 (by omega : 8 ≤ i - 8),
          byte_testBit h1 (by omega : 8 ≤ i - 16)]

theorem putUint32_length (s : Nat) : (putUint32 s).length = 4 := rfl

theorem putUint32_bytes (s : Nat) : ∀ b ∈ putUint32 s, b < 256 := by
  simp only [putUint32, List.mem_cons, List.not_mem_nil, or_false]
  rintro b (rfl | rfl | rfl | rfl) <;> exact Nat.mod_lt _ (by norm_num)

theorem readUint32_lt {b0 b1 b2 b3 : Nat} (r : List Nat)
    (h0 : b0 < 256) (h1 : b1 < 256) (h2 : b2 < 256) (h3 : b3 < 256) :
    readUint32 (b0 :: b1 :: b2 :: b3 :: r) < 2 ^ 32 := by
  rw [readUint32_eq r h0 h1 h2 h3]; omega

theorem readUint32_putUint32 {w : Nat} (hw : w < 2 ^ 32) (r : List Nat) :
    readUint32 (putUint32 w ++ r) = w := by
  have e : putUint32 w ++ r
      = ((w >>> 24) % 256) :: ((w >>> 16) % 256) :: ((w >>> 8) % 256) :: (w % 256) :: r := rfl
  rw [e, readUint32_eq r (Nat.mod_lt _ (by norm_num)) (Nat.mod_lt _ (by norm_num))
    (Nat.mod_lt _ (by norm_num)) (Nat.mod_lt _ (by norm_num))]
  simp only [Nat.shiftRight_eq_div_pow]
  omega

theorem putUint32_readUint32 {b0 b1 b2 b3 : Nat} (r : List Nat)
    (h0 : b0 < 256) (h1 : b1 < 256) (h2 : b2 < 256) (h3 : b3 < 256) :
    putUint32 (readUint32 (b0 :: b1 :: b2 :: b3 :: r)) = [b0, b1, b2, b3] := by
  rw [readUint32_eq r h0 h1 h2 h3]
  simp only [putUint32, Nat.shiftRight_eq_div_pow, List.cons.injEq, and_true]
  refine ⟨by omega, by omega, by omega, by omega⟩

theorem putUint32_mod (s : Nat) : putUint32 (s % 2 ^ 32) = putUint32 s := by
  simp only [putUint32, Nat.shiftRight_eq_div_pow, List.cons.injEq, and_true]
  refine ⟨by omega, by omega, by omega, by omega⟩

theorem sum4_testBit {b0 b1 b2 b3 : Nat} (j : Nat)
    ( _h0 : b0 < 256) (h1 : b1 < 256) (h2 : b2 < 256) (h3 : b3 < 256) :
    (2 ^ 8 * (2 ^ 8 * (2 ^ 8 * b0 + b1) + b2) + b3).testBit j =
      if j < 8 then b3.testBit j
      else if j < 16 then b2.testBit (j - 8)
      else if j < 24 then b1.testBit (j - 16)
      else b0.testBit (j - 24) := by
  rw [Nat.testBit_mul_pow_two_add _ (by omega : b3 < 2 ^ 8)]
  by_cases c8 : j < 8
  · simp [c8]
  · rw [if_neg c8, if_neg c8, Nat.testBit_mul_pow_two_add _ (by omega : b2 < 2 ^ 8)]
    by_cases c16 : j < 16
    · rw [if_pos (by omega : j - 8 < 8), if_pos c16]
    · rw [if_neg (by omega : ¬ j - 8 < 8), if_neg c16,
        Nat.testBit_mul_pow_two_add _ (by omega : b1 < 2 ^ 8)]
      by_cases c24 : j < 24
      · rw [if_pos (by omega : j - 8 - 8 < 8), if_pos c24,
          show j - 8 - 8 = j - 16 from by omega]
      · rw [if_neg (by omega : ¬ j - 8 - 8 < 8), if_neg c24,
          show j - 8 - 8 - 8 = j - 24 from by omega]

theorem readUint32_xor {a0 a1 a2 a3 b0 b1 b2 b3 : Nat} (ra rb rc : List Nat)
    (ha0 : a0 < 256) (ha1 : a1 < 256) (ha2 : a2 < 256) (ha3 : a3 < 256)
    (hb0 : b0 < 256) (hb1 : b1 < 256) (hb2 : b2 < 256) (hb3 : b3 < 256) :
    readUint32 ((a0 ^^^ b0) :: (a1 ^^^ b1) :: (a2 ^^^ b2) :: (a3 ^^^ b3) :: rc)
      = readUint32 (a0 :: a1 :: a2 :: a3 :: ra) ^^^ readUint32 (b0 :: b1 :: b2 :: b3 :: rb) := by
  have e256 : (256 : Nat) = 2 ^ 8 := by norm_num
  have hx : ∀ {x y : Nat}, x < 256 → y < 256 → x ^^^ y < 256 := by
    intro x y hxx hy
    rw [e256] at hxx hy ⊢
    exact Nat.xor_lt_two_pow hxx hy
  rw [readUint32_eq rc (hx ha0 hb0) (hx ha1 hb1) (hx ha2 hb2) (hx ha3 hb3),
    readUint32_eq ra ha0 ha1 ha2 ha3, readUint32_eq rb hb0 hb1 hb2 hb3]
  apply Nat.eq_of_testBit_eq
  intro j
  rw [Nat.testBit_xor, sum4_testBit j (hx ha0 hb0) (hx ha1 hb1) (hx ha2 hb2) (hx ha3 hb3),
    sum4_testBit j ha0 ha1 ha2 ha3, sum4_testBit j hb0 hb1 hb2 hb3]
  by_cases c8 : j < 8
  · simp [c8, Nat.testBit_xor]
  · by_cases c16 : j < 16
    · simp [c8, c16, Nat.testBit_xor]
    · by_cases c24 : j < 24
      · simp [c8, c16, c24, Nat.testBit_xor]
      · simp [c8, c16, c24, Nat.testBit_xor]

/-! ### Reference SHA-1 compression (the spec's four-round structure with a
full 80-word schedule) and its relation to sha1_block_generic -/

/-- Majority round function as the spec states it for rounds 40-59:
(b and c) or (b and d) or (c and d). -/
def sha1_maj (b c d : Nat) : Nat := b &&& c ||| b &&& d ||| c &&& d

/-- The reference full SHA-1 message schedule: words 0-15 from the block,
word i = rotl1(w[i-3] xor w[i-8] xor w[i-14] xor w[i-16]) for i of 16 and
up. -/
def sha1_W (m : List Nat) (i : Nat) : Nat :=
  if i < 16 then m.getD i 0
  else rotl32 (sha1_W m (i - 3) ^^^ sha1_W m (i - 8) ^^^
               sha1_W m (i - 14) ^^^ sha1_W m (i - 16)) 1
termination_by i
decreasing_by all_goals omega

/-- Spec round function selector: ch for steps 0-19, parity for 20-39,
majority for 40-59, parity for 60-79. -/
def sha1_ref_f (i : Nat) : Nat → Nat → Nat → Nat :=
  if i < 20 then sha1_ch else if i < 40 then sha1_parity
  else if i < 60 then sha1_maj else sha1_parity

/-- Spec round constant selector. -/
def sha1_ref_K (i : Nat) : Nat :=
  if i < 20 then 0x5A827999 else if i < 40 then 0x6ED9EBA1
  else if i < 60 then 0x8F1BBCDC else 0xCA62C1D6

/-- The five working registers of the reference compression. -/
structure regs5 where
  a : Nat
  b : Nat
  c : Nat
  d : Nat
  e : Nat

/-- One step of the reference compression at index i:
a' = rotl5(a) + f(b,c,d) + e + w[i] + K mod 2^32; b' = a; c' = rotl30(b);
d' = c; e' = d, with w[i] the full-schedule word. -/
def sha1_ref_step (m : List Nat) (s : regs5) (i : Nat) : regs5 :=
  ⟨(rotl32 s.a 5 + sha1_ref_f i s.b s.c s.d + s.e + sha1_W m i + sha1_ref_K i) % 2 ^ 32,
   s.a, rotl32 s.b 30, s.c, s.d⟩

/-- The reference SHA-1 compression step per the spec: 80 rounds of
sha1_ref_step from the input state, final output the input state plus the
working registers mod 2^32, written into the first five words of dst. -/
def sha1_ref (dst init src : List Nat) : List Nat :=
  let s := (List.range 80).foldl (sha1_ref_step src)
    ⟨init.getD 0 0, init.getD 1 0, init.getD 2 0, init.getD 3 0, init.getD 4 0⟩
  [(init.getD 0 0 + s.a) % 2 ^ 32, (init.getD 1 0 + s.b) % 2 ^ 32,
   (init.getD 2 0 + s.c) % 2 ^ 32, (init.getD 3 0 + s.d) % 2 ^ 32,
   (init.getD 4 0 + s.e) % 2 ^ 32] ++ dst.drop 5

/-- The circular schedule buffer contents after k update steps (updates run
at indices 16, 17, ..., 15 + k), as sha1_block_generic maintains it. -/
def wbufAux (m : List Nat) : Nat → List Nat
  | 0 => m
  | k + 1 => sha1_w_update (wbufAux m k) (16 + k)

theorem sha1_maj_go_eq_maj (b c d : Nat) : sha1_maj_go b c d = sha1_maj b c d := by
  apply Nat.eq_of_testBit_eq
  intro i
  simp only [sha1_maj_go, sha1_maj, Nat.testBit_or, Nat.testBit_and]
  cases b.testBit i <;> cases c.testBit i <;> cases d.testBit i <;> rfl

theorem sha1_w_update_length (w : List Nat) (i : Nat) :
    (sha1_w_update w i).length = w.length := by
  simp [sha1_w_update]

theorem wbufAux_length (m : List Nat) (k : Nat) :
    (wbufAux m k).length = m.length := by
  induction k with
  | zero => rfl
  | succ k ih => simp [wbufAux, sha1_w_update_length, ih]

/-- The invariant of the circular buffer: after k updates the slot j mod 16
holds the reference schedule word j, for every j in the live window
k..k+15. -/
theorem wbufAux_getD {m : List Nat} (hm : m.length = 16) :
    ∀ k j, k ≤ j → j ≤ k + 15 → (wbufAux m k).getD (j % 16) 0 = sha1_W m j := by
  intro k
  induction k with
  | zero =>
    intro j _ hj
    have hj16 : j < 16 := by omega
    rw [Nat.mod_eq_of_lt hj16, wbufAux]
    rw [sha1_W]
    simp [hj16]
  | succ k ih =>
    intro j hjl hjr
    have hlen : (wbufAux m k).length = 16 := by rw [wbufAux_length, hm]
    by_cases hj : j = k + 16
    · subst hj
      have hidx : (k + 16) % 16 = (16 + k) % 16 := by omega
      rw [hidx]
      show (sha1_w_update (wbufAux m k) (16 + k)).getD ((16 + k) % 16) 0 = _
      rw [sha1_w_update]
      simp only [List.getD_eq_getElem?_getD]
      rw [List.getElem?_set_self (by rw [hlen]; exact Nat.mod_lt _ (by norm_num))]
      simp only [Option.getD_some]
      have e3 : (16 + k - 3) % 16 = (k + 13) % 16 := by omega
      have e8 : (16 + k - 8) % 16 = (k + 8) % 16 := by omega
      have e14 : (16 + k - 14) % 16 = (k + 2) % 16 := by omega
      have e16 : (16 + k) % 16 = k % 16 := by omega
      rw [e3, e8, e14, e16]
      have g3 := ih (k + 13) (by omega) (by omega)
      have g8 := ih (k + 8) (by omega) (by omega)
      have g14 := ih (k + 2) (by omega) (by omega)
      have g16 := ih k (by omega) (by omega)
      simp only [List.getD_eq_getElem?_getD] at g3 g8 g14 g16
      rw [g3, g8, g14, g16]
      rw [show sha1_W m (k + 16)
            = rotl32 (sha1_W m (k + 16 - 3) ^^^ sha1_W m (k + 16 - 8) ^^^
                sha1_W m (k + 16 - 14) ^^^ sha1_W m (k + 16 - 16)) 1 from by
        rw [sha1_W]; simp]
      rw [show k + 16 - 3 = k + 13 from by omega, show k + 16 - 8 = k + 8 from by omega,
        show k + 16 - 14 = k + 2 from by omega, show k + 16 - 16 = k from by omega]
    · have hjr' : j ≤ k + 15 := by omega
      have hne : (16 + k) % 16 ≠ j % 16 := by omega
      show (sha1_w_update (wbufAux m k) (16 + k)).getD (j % 16) 0 = _
      rw [sha1_w_update]
      simp only [List.getD_eq_getElem?_getD]
      rw [List.getElem?_set_ne hne]
      have := ih j (by omega) hjr'
      simpa [List.getD_eq_getElem?_getD] using this

/-- Round function selector exactly as sha1_block_generic computes each
round (the 40-59 round function in Go form). -/
def sha1_gen_f (i : Nat) : Nat → Nat → Nat → Nat :=
  if i < 20 then sha1_ch else if i < 40 then sha1_parity
  else if i < 60 then sha1_maj_go else sha1_parity

/-- The loop body of sha1_block_generic as a single indexed step: the round
constant and function chosen by index, the schedule updated from index 16
on. -/
def sha1_gen_step (s : sha1Regs) (i : Nat) : sha1Regs :=
  sha1_round (sha1_ref_K i) (sha1_gen_f i) (decide (16 ≤ i)) s i

/-- Recursion form of a fold over List.range. -/
def foldRec {S : Type} (f : S → Nat → S) (s : S) : Nat → S
  | 0 => s
  | n + 1 => f (foldRec f s n) n

theorem foldl_range_eq_foldRec {S : Type} (f : S → Nat → S) (s : S) (n : Nat) :
    (List.range n).foldl f s = foldRec f s n := by
  induction n with
  | zero => rfl
  | succ n ih => rw [List.range_succ, List.foldl_append, ih]; rfl

theorem sha1_gen_f_apply (i b c d : Nat) :
    sha1_gen_f i b c d = sha1_ref_f i b c d := by
  unfold sha1_gen_f sha1_ref_f
  split_ifs <;> simp [sha1_maj_go_eq_maj]

theorem sha1_block_generic_eq_fold (dst init src : List Nat) :
    sha1_block_generic dst init src =
      (let s := (List.range 80).foldl sha1_gen_step
        ⟨init.getD 0 0, init.getD 1 0, init.getD 2 0, init.getD 3 0, init.getD 4 0, src⟩
       [(init.getD 0 0 + s.a) % 2 ^ 32, (init.getD 1 0 + s.b) % 2 ^ 32,
        (init.getD 2 0 + s.c) % 2 ^ 32, (init.getD 3 0 + s.d) % 2 ^ 32,
        (init.getD 4 0 + s.e) % 2 ^ 32] ++ dst.drop 5) := by
  have ext : ∀ (lo len : Nat) (K : Nat) (f : Nat → Nat → Nat → Nat) (upd : Bool) (s : sha1Regs),
      (∀ i, lo ≤ i → i < lo + len →
        K = sha1_ref_K i ∧ (∀ b c d, f b c d = sha1_gen_f i b c d) ∧ upd = decide (16 ≤ i)) →
      (List.range' lo len).foldl (sha1_round K f upd) s
        = (List.range' lo len).foldl sha1_gen_step s := by
    intro lo len K f upd s h
    apply List.foldl_ext
    intro s' i hi
    rw [List.mem_range'_1] at hi
    obtain ⟨hK, hf, hupd⟩ := h i hi.1 hi.2
    simp only [sha1_gen_step, sha1_round, hK, hupd]
    congr 1
    rw [hf]
  show _ ++ _ = _ ++ _
  have split80 : List.range 80
      = List.range' 0 16 ++ List.range' 16 4 ++ List.range' 20 20 ++
        List.range' 40 20 ++ List.range' 60 20 := by
    rw [List.range_eq_range']
    rfl
  rw [split80]
  simp only [List.foldl_append]
  rw [ext 0 16 0x5A827999 sha1_ch false _
      (by intro i h1 h2; refine ⟨?_, ?_, ?_⟩
          · simp only [sha1_ref_K]
            rw [if_pos (by omega : i < 20)]
          · intro b c d
            simp only [sha1_gen_f]
            rw [if_pos (by omega : i < 20)]
          · simp; omega),
    ext 16 4 0x5A827999 sha1_ch true _
      (by intro i h1 h2; refine ⟨?_, ?_, ?_⟩
          · simp only [sha1_ref_K]
            rw [if_pos (by omega : i < 20)]
          · intro b c d
            simp only [sha1_gen_f]
            rw [if_pos (by omega : i < 20)]
          · simp; omega),
    ext 20 20 0x6ED9EBA1 sha1_parity true _
      (by intro i h1 h2; refine ⟨?_, ?_, ?_⟩
          · simp only [sha1_ref_K]
            rw [if_neg (by omega), if_pos (by omega)]
          · intro b c d
            simp only [sha1_gen_f]
            rw [if_neg (by omega), if_pos (by omega)]
          · simp; omega),
    ext 40 20 0x8F1BBCDC sha1_maj_go true _
      (by intro i h1 h2; refine ⟨?_, ?_, ?_⟩
          · simp only [sha1_ref_K]
            rw [if_neg (by omega), if_neg (by omega), if_pos (by omega)]
          · intro b c d
            simp only [sha1_gen_f]
            rw [if_neg (by omega), if_neg (by omega), if_pos (by omega)]
          · simp; omega),
    ext 60 20 0xCA62C1D6 sha1_parity true _
      (by intro i h1 h2; refine ⟨?_, ?_, ?_⟩
          · simp only [sha1_ref_K]
            rw [if_neg (by omega), if_neg (by omega), if_neg (by omega)]
          · intro b c d
            simp only [sha1_gen_f]
            rw [if_neg (by omega), if_neg (by omega), if_neg (by omega)]
          · simp; omega)]

/-- The generic loop state tracks the reference state: after n steps the
registers agree and the circular buffer holds wbufAux m (n - 16). -/
theorem gen_ref_correspond {m : List Nat} (hm : m.length = 16) (r0 : regs5) :
    ∀ n,
      (foldRec sha1_gen_step ⟨r0.a, r0.b, r0.c, r0.d, r0.e, m⟩ n).a
          = (foldRec (sha1_ref_step m) r0 n).a ∧
      (foldRec sha1_gen_step ⟨r0.a, r0.b, r0.c, r0.d, r0.e, m⟩ n).b
          = (foldRec (sha1_ref_step m) r0 n).b ∧
      (foldRec sha1_gen_step ⟨r0.a, r0.b, r0.c, r0.d, r0.e, m⟩ n).c
          = (foldRec (sha1_ref_step m) r0 n).c ∧
      (foldRec sha1_gen_step ⟨r0.a, r0.b, r0.c, r0.d, r0.e, m⟩ n).d
          = (foldRec (sha1_ref_step m) r0 n).d ∧
      (foldRec sha1_gen_step ⟨r0.a, r0.b, r0.c, r0.d, r0.e, m⟩ n).e
          = (foldRec (sha1_ref_step m) r0 n).e ∧
      (foldRec sha1_gen_step ⟨r0.a, r0.b, r0.c, r0.d, r0.e, m⟩ n).w
          = wbufAux m (n - 16) := by
  intro n
  induction n with
  | zero => exact ⟨rfl, rfl, rfl, rfl, rfl, rfl⟩
  | succ n ih =>
    obtain ⟨ha, hb, hc, hd, he, hw⟩ := ih
    set g := foldRec sha1_gen_step ⟨r0.a, r0.b, r0.c, r0.d, r0.e, m⟩ n with hg
    set r := foldRec (sha1_ref_step m) r0 n with hr
    have hgs : foldRec sha1_gen_step ⟨r0.a, r0.b, r0.c, r0.d, r0.e, m⟩ (n + 1)
        = sha1_gen_step g n := rfl
    have hrs : foldRec (sha1_ref_step m) r0 (n + 1) = sha1_ref_step m r n := rfl
    rw [hgs, hrs]
    by_cases h16 : 16 ≤ n
    · have hupd : (decide (16 ≤ n)) = true := by simp [h16]
      have hbuf : sha1_w_update g.w n = wbufAux m (n + 1 - 16) := by
        rw [hw, show n + 1 - 16 = (n - 16) + 1 from by omega]
        show _ = sha1_w_update (wbufAux m (n - 16)) (16 + (n - 16))
        rw [show 16 + (n - 16) = n from by omega]
      have hword : (sha1_w_update g.w n).getD (n % 16) 0 = sha1_W m n := by
        rw [hbuf, show n + 1 - 16 = n - 15 from by omega]
        exact wbufAux_getD hm (n - 15) n (by omega) (by omega)
      simp only [sha1_gen_step, sha1_round, hupd, if_pos rfl, if_true]
      simp only [sha1_ref_step]
      refine ⟨?_, ha, ?_, hc, hd, ?_⟩
      · simp only [hword, ha, hb, hc, hd, he, sha1_gen_f_apply]
      · rw [hb]
      · exact hbuf
    · have hupd : (decide (16 ≤ n)) = false := by simp [h16]
      have hbuf : g.w = wbufAux m (n + 1 - 16) := by
        rw [hw, show n - 16 = 0 from by omega, show n + 1 - 16 = 0 from by omega]
      have hword : g.w.getD (n % 16) 0 = sha1_W m n := by
        rw [hw, show n - 16 = 0 from by omega]
        show (wbufAux m 0).getD (n % 16) 0 = sha1_W m n
        exact wbufAux_getD hm 0 n (by omega) (by omega)
      simp only [sha1_gen_step, sha1_round, hupd, if_false, Bool.false_eq_true]
      simp only [sha1_ref_step]
      refine ⟨?_, ha, ?_, hc, hd, ?_⟩
      · simp only [hword, ha, hb, hc, hd, he, sha1_gen_f_apply]
      · rw [hb]
      · exact hbuf

/-- Claim C4: for every 160-bit input state and every 512-bit block (16
words), sha1_block_generic performs exactly the FIPS 180 SHA-1 four-round
structure: 20 steps per round with the four round constants, round
functions ch, parity, majority, parity, the per-step register update
a,b,c,d,e := rotl5(a)+f+e+w[i]+K, a, rotl30(b), c, d (mod 2^32), and final
output the input state plus the working registers component-wise modulo
2^32. -/
theorem C4_generic_compression_follows_fips (dst init src : List Nat)
    (hsrc : src.length = 16) :
    sha1_block_generic dst init src = sha1_ref dst init src := by
  rw [sha1_block_generic_eq_fold]
  obtain ⟨ha, hb, hc, hd, he, -⟩ := gen_ref_correspond hsrc
    ⟨init.getD 0 0, init.getD 1 0, init.getD 2 0, init.getD 3 0, init.getD 4 0⟩ 80
  dsimp only at ha hb hc hd he
  simp only [sha1_ref, foldl_range_eq_foldRec]
  rw [ha, hb, hc, hd, he]

theorem C4_generic_compression_follows_fips_witness :
    ([3, 1, 4, 1, 5, 9, 2, 6, 5, 3, 5, 8, 9, 7, 9, 3] : List Nat).length = 16 ∧
    sha1_block_generic [7, 7, 7, 7, 7, 7] sha1_IV
        [3, 1, 4, 1, 5, 9, 2, 6, 5, 3, 5, 8, 9, 7, 9, 3]
      = sha1_ref [7, 7, 7, 7, 7, 7] sha1_IV
        [3, 1, 4, 1, 5, 9, 2, 6, 5, 3, 5, 8, 9, 7, 9, 3] :=
  ⟨by decide,
   C4_generic_compression_follows_fips [7, 7, 7, 7, 7, 7] sha1_IV
     [3, 1, 4, 1, 5, 9, 2, 6, 5, 3, 5, 8, 9, 7, 9, 3] (by decide)⟩

/-- Claim C5: the circular 16-word schedule of sha1_block_generic — words
0-15 read directly from the block, and for i of 16..79 the word
rotl1(w[i-3] xor w[i-8] xor w[i-14] xor w[i-16]) computed from the slots
(i-3) mod 16, (i-8) mod 16, (i-14) mod 16, i mod 16 and stored back into
slot i mod 16 before use — yields at every step i the same word as the
reference full 80-word schedule sha1_W. -/
theorem C5_circular_schedule_matches_reference (m : List Nat) (i : Nat)
    (hm : m.length = 16) (hi : i ≤ 79) :
    (if i < 16 then m.getD i 0 else (wbufAux m (i - 15)).getD (i % 16) 0)
      = sha1_W m i := by
  by_cases h : i < 16
  · rw [if_pos h, sha1_W]
    simp [h]
  · rw [if_neg h]
    exact wbufAux_getD hm (i - 15) i (by omega) (by omega)

theorem C5_circular_schedule_matches_reference_witness :
    ([3, 1, 4, 1, 5, 9, 2, 6, 5, 3, 5, 8, 9, 7, 9, 3] : List Nat).length = 16 ∧
    (50 : Nat) ≤ 79 ∧
    (if (50 : Nat) < 16
     then ([3, 1, 4, 1, 5, 9, 2, 6, 5, 3, 5, 8, 9, 7, 9, 3] : List Nat).getD 50 0
     else (wbufAux [3, 1, 4, 1, 5, 9, 2, 6, 5, 3, 5, 8, 9, 7, 9, 3] (50 - 15)).getD (50 % 16) 0)
      = sha1_W [3, 1, 4, 1, 5, 9, 2, 6, 5, 3, 5, 8, 9, 7, 9, 3] 50 :=
  ⟨by decide, by decide,
   C5_circular_schedule_matches_reference [3, 1, 4, 1, 5, 9, 2, 6, 5, 3, 5, 8, 9, 7, 9, 3]
     50 (by decide) (by decide)⟩

/-! ### Structure of sha1_block results -/

theorem sha1_block_eq_compress (dst init src : List Nat) :
    sha1_block dst init src = sha1_compress init src ++ dst.drop 5 := rfl

theorem sha1_compress_length (init src : List Nat) :
    (sha1_compress init src).length = 5 := by
  simp [sha1_compress, sha1_block_generic]

theorem sha1_compress_lt (init src : List Nat) :
    ∀ x ∈ sha1_compress init src, x < 2 ^ 32 := by
  simp only [sha1_compress, sha1_block_generic, List.drop_nil, List.append_nil,
    List.forall_mem_cons]
  refine ⟨?_, ?_, ?_, ?_, ?_, fun x hx => absurd hx (List.not_mem_nil x)⟩
  all_goals exact Nat.mod_lt _ (by norm_num)

theorem sha1_compress_congr {i1 i2 : List Nat}
    (h0 : i1.getD 0 0 = i2.getD 0 0) (h1 : i1.getD 1 0 = i2.getD 1 0)
    (h2 : i1.getD 2 0 = i2.getD 2 0) (h3 : i1.getD 3 0 = i2.getD 3 0)
    (h4 : i1.getD 4 0 = i2.getD 4 0) (src : List Nat) :
    sha1_compress i1 src = sha1_compress i2 src := by
  simp only [sha1_compress, sha1_block_generic, h0, h1, h2, h3, h4]

theorem sha1_block_drop5 (dst init src : List Nat) :
    (sha1_block dst init src).drop 5 = dst.drop 5 := by
  rw [sha1_block_eq_compress, List.drop_left' (sha1_compress_length init src)]

theorem pbkdf2_iter_drop5 (inner outer : List Nat) :
    ∀ (k : Nat) (tmp U : List Nat),
      ((pbkdf2_iter inner outer k (tmp, U)).2).drop 5 = U.drop 5 := by
  intro k
  induction k with
  | zero => intro tmp U; rfl
  | succ k ih =>
    intro tmp U
    show ((pbkdf2_iter inner outer k (_, sha1_block (sha1_block U inner U) outer
      (sha1_block U inner U))).2).drop 5 = U.drop 5
    rw [ih, sha1_block_drop5, sha1_block_drop5]

theorem sha1_input_drop5 (b : List Nat) :
    (sha1_input b).drop 5 = (List.range' 5 11).map (fun i => readUint32 (b.drop (i * 4))) := by
  have hsplit : List.range 16 = List.range' 0 5 ++ List.range' 5 11 := by
    rw [List.range_eq_range']
    rfl
  rw [sha1_input, hsplit, List.map_append]
  exact List.drop_left' (by simp)

theorem sha1_pad_84 (T : List Nat) (hT : T.length = 20) :
    sha1_pad T 84
      = T ++ [128] ++ List.replicate 35 0 ++ [0, 0, 0, 0] ++ [0, 0, 2, 160] := by
  have htake : T.take 20 = T := List.take_of_length_le (by omega)
  simp only [sha1_pad]
  rw [show (84 : Nat) % 64 = 20 from rfl, htake,
    show (55 : Nat) - 20 = 35 from rfl,
    show putUint32 ((84 * 8 % 2 ^ 64) >>> 32 % 2 ^ 32) = [0, 0, 0, 0] from rfl,
    show putUint32 (84 * 8 % 2 ^ 64 % 2 ^ 32) = [0, 0, 2, 160] from rfl]

theorem sha1_pad_84_drop (T : List Nat) (hT : T.length = 20) (j : Nat) :
    (sha1_pad T 84).drop (20 + j)
      = (128 :: (List.replicate 35 0 ++ [0, 0, 0, 0, 0, 0, 2, 160])).drop j := by
  rw [sha1_pad_84 T hT]
  rw [← List.drop_drop]
  congr 1
  have : T ++ [128] ++ List.replicate 35 0 ++ [0, 0, 0, 0] ++ [0, 0, 2, 160]
      = T ++ (128 :: (List.replicate 35 0 ++ [0, 0, 0, 0, 0, 0, 2, 160])) := by
    simp [List.append_assoc]
  rw [this, List.drop_left' hT]

theorem sha1_input_pad84_drop5 (T : List Nat) (hT : T.length = 20) :
    (sha1_input (sha1_pad T 84)).drop 5
      = [0x80000000, 0, 0, 0, 0, 0, 0, 0, 0, 0, 672] := by
  rw [sha1_input_drop5]
  rw [show List.range' 5 11 = [5, 6, 7, 8, 9, 10, 11, 12, 13, 14, 15] from rfl]
  simp only [List.map_cons, List.map_nil]
  have k := sha1_pad_84_drop T hT
  have d0 := k 0
  have d1 := k 4
  have d2 := k 8
  have d3 := k 12
  have d4 := k 16
  have d5 := k 20
  have d6 := k 24
  have d7 := k 28
  have d8 := k 32
  have d9 := k 36
  have d10 := k 40
  norm_num at d0 d1 d2 d3 d4 d5 d6 d7 d8 d9 d10
  rw [show (5 * 4 : Nat) = 20 from rfl, show (6 * 4 : Nat) = 24 from rfl,
    show (7 * 4 : Nat) = 28 from rfl, show (8 * 4 : Nat) = 32 from rfl,
    show (9 * 4 : Nat) = 36 from rfl, show (10 * 4 : Nat) = 40 from rfl,
    show (11 * 4 : Nat) = 44 from rfl, show (12 * 4 : Nat) = 48 from rfl,
    show (13 * 4 : Nat) = 52 from rfl, show (14 * 4 : Nat) = 56 from rfl,
    show (15 * 4 : Nat) = 60 from rfl,
    d0, d1, d2, d3, d4, d5, d6, d7, d8, d9, d10]
  decide

/-- Claim C9: sha1_block writes only the first five words of its
destination, leaving words 5..15 unchanged; consequently the iteration
loop preserves the padding words of U across every in-place call, and for
a 20-byte value T those padding words are exactly the 0x80 marker word
followed by zeros and the 672-bit length word, so U stays a correctly
padded 20-byte message. -/
theorem C9_sha1_block_frame_preserves_padding :
    (∀ dst init src : List Nat, (sha1_block dst init src).drop 5 = dst.drop 5) ∧
    (∀ (inner outer : List Nat) (k : Nat) (tmp U : List Nat),
      ((pbkdf2_iter inner outer k (tmp, U)).2).drop 5 = U.drop 5) ∧
    (∀ T : List Nat, T.length = 20 →
      (sha1_input (sha1_pad T 84)).drop 5
        = [0x80000000, 0, 0, 0, 0, 0, 0, 0, 0, 0, 672]) :=
  ⟨sha1_block_drop5, fun inner outer k tmp U => pbkdf2_iter_drop5 inner outer k tmp U,
   sha1_input_pad84_drop5⟩

theorem C9_sha1_block_frame_preserves_padding_witness :
    (sha1_block [1, 2, 3, 4, 5, 6, 7, 8] [9, 9, 9, 9, 9] [0, 0, 0, 0, 0, 0, 0, 0]).drop 5
        = ([1, 2, 3, 4, 5, 6, 7, 8] : List Nat).drop 5 ∧
    ((pbkdf2_iter [1, 1, 1, 1, 1] [2, 2, 2, 2, 2] 3 ([0, 0, 0, 0, 0],
        [4, 4, 4, 4, 4, 4, 4, 4, 4, 4, 4, 4, 4, 4, 4, 4])).2).drop 5
        = ([4, 4, 4, 4, 4, 4, 4, 4, 4, 4, 4, 4, 4, 4, 4, 4] : List Nat).drop 5 ∧
    ((List.replicate 20 7 : List Nat).length = 20 ∧
      (sha1_input (sha1_pad (List.replicate 20 7) 84)).drop 5
        = [0x80000000, 0, 0, 0, 0, 0, 0, 0, 0, 0, 672]) :=
  ⟨C9_sha1_block_frame_preserves_padding.1 [1, 2, 3, 4, 5, 6, 7, 8] [9, 9, 9, 9, 9]
     [0, 0, 0, 0, 0, 0, 0, 0],
   C9_sha1_block_frame_preserves_padding.2.1 [1, 1, 1, 1, 1] [2, 2, 2, 2, 2] 3
     [0, 0, 0, 0, 0] [4, 4, 4, 4, 4, 4, 4, 4, 4, 4, 4, 4, 4, 4, 4, 4],
   by decide,
   C9_sha1_block_frame_preserves_padding.2.2 (List.replicate 20 7) (by decide)⟩

theorem readW5_length (T : List Nat) : (readW5 T).length = 5 := by
  simp [readW5]

theorem pbkdf2_iter_fst_length (inner outer : List Nat) :
    ∀ (k : Nat) (tmp U : List Nat), tmp.length = 5 →
      ((pbkdf2_iter inner outer k (tmp, U)).1).length = 5 := by
  intro k
  induction k with
  | zero => intro tmp U h; exact h
  | succ k ih =>
    intro tmp U h
    exact ih _ _ rfl

theorem sha1_output_length {bl : List Nat} (h : bl.length = 5) :
    (sha1_output bl).length = 20 := by
  have : bl.take 5 = bl := List.take_of_length_le (by omega)
  simp only [sha1_output, this, List.length_flatten]
  rcases bl with _ | ⟨x0, _ | ⟨x1, _ | ⟨x2, _ | ⟨x3, _ | ⟨x4, _ | ⟨x5, t⟩⟩⟩⟩⟩⟩ <;>
    simp_all [putUint32_length]

theorem pbkdf2_block_length (inner outer p s : List Nat) (i c : Nat) :
    (pbkdf2_block inner outer p s i c).length = 20 := by
  simp only [pbkdf2_block]
  exact sha1_output_length (pbkdf2_iter_fst_length _ _ _ _ _ (readW5_length _))

theorem dk_fold_length (g : Nat → List Nat) (hg : ∀ i, (g i).length = 20) :
    ∀ (l : List Nat) (acc : List Nat),
      (l.foldl (fun dk bi => dk ++ g bi) acc).length = acc.length + 20 * l.length := by
  intro l
  induction l with
  | nil => intro acc; simp
  | cons x xs ih =>
    intro acc
    rw [List.foldl_cons, ih, List.length_append, hg]
    simp
    omega

theorem SHA1_eq_some (p s : List Nat) (c k : Int) (hk : 0 ≤ k) :
    SHA1 p s c k = some
      (((List.range ((k + 19).tdiv 20).toNat).foldl
        (fun dk bi => dk ++ pbkdf2_block (hmac_init p).1 (hmac_init p).2 p s (bi + 1) c.toNat)
        []).take k.toNat) := by
  simp only [SHA1]
  rw [if_neg (by omega : ¬ k < 0)]

theorem dk_fold_eq (g : Nat → List Nat) :
    ∀ (l : List Nat) (acc : List Nat),
      (l.foldl (fun dk bi => dk ++ g bi) acc) = acc ++ (l.map g).flatten := by
  intro l
  induction l with
  | nil => intro acc; simp
  | cons x xs ih => intro acc; rw [List.foldl_cons, ih]; simp


theorem tdiv19 (k : Int) (hk : 0 ≤ k) :
    ((k + 19).tdiv 20).toNat = (k.toNat + 19) / 20 := by
  obtain ⟨K, rfl⟩ := Int.eq_ofNat_of_zero_le hk
  rfl

/-- Claim C3: for every password, salt, iterations at least 1 and
keyLength at least 1 (with the salt-length precondition of the spec), the
derivation returns a byte sequence of length exactly keyLength. -/
theorem C3_derived_key_has_requested_length (p s : List Nat) (c k : Int)
    ( _hc : 1 ≤ c) (hk : 1 ≤ k) ( _hs : s.length + 4 ≤ 55) :
    ∃ l, SHA1 p s c k = some l ∧ (l.length : Int) = k := by
  refine ⟨_, SHA1_eq_some p s c k (by omega), ?_⟩
  rw [List.length_take,
    dk_fold_length _ (fun i => pbkdf2_block_length (hmac_init p).1 (hmac_init p).2 p s (i + 1) c.toNat) _ []]
  rw [tdiv19 k (by omega)]
  simp only [List.length_range, List.length_nil]
  omega

/-- Claim C8: the derived key for a smaller valid keyLength is a byte
prefix of the derived key for a larger one: truncating the k-prime result
to k bytes gives the k result. -/
theorem C8_derived_key_prefix_monotone (p s : List Nat) (c k k' : Int)
    (hk : 1 ≤ k) (hkk : k ≤ k') :
    (SHA1 p s c k').map (fun l => l.take k.toNat) = SHA1 p s c k := by
  rw [SHA1_eq_some p s c k (by omega), SHA1_eq_some p s c k' (by omega)]
  simp only [Option.map_some']
  congr 1
  rw [List.take_take, min_eq_left (Int.toNat_le_toNat hkk)]
  rw [dk_fold_eq, dk_fold_eq]
  simp only [List.nil_append]
  set g := fun bi => pbkdf2_block (hmac_init p).1 (hmac_init p).2 p s (bi + 1) c.toNat with hg
  set nb := ((k + 19).tdiv 20).toNat with hnbdef
  set nb' := ((k' + 19).tdiv 20).toNat with hnbdef'
  have hnb : nb ≤ nb' := by
    rw [hnbdef, hnbdef', tdiv19 _ (by omega), tdiv19 _ (by omega)]
    have := Int.toNat_le_toNat hkk
    apply Nat.div_le_div_right
    omega
  have hsum : (nb' - nb) + nb = nb' := by omega
  have hr : List.range nb' = List.range nb ++ List.range' nb (nb' - nb) := by
    rw [List.range_eq_range', List.range_eq_range', ← hsum, ← List.range'_append_1,
      Nat.zero_add]
    rw [show nb' - nb + nb - nb = nb' - nb from by omega]
  rw [hr, List.map_append, List.flatten_append]
  have hlen : ((List.range nb).map g).flatten.length = 20 * nb := by
    have h1 := dk_fold_length g (fun i => pbkdf2_block_length _ _ _ _ _ _) (List.range nb) []
    rw [dk_fold_eq] at h1
    simpa using h1
  rw [List.take_append_of_le_length (by
    rw [hlen, hnbdef, tdiv19 _ (by omega)]
    omega)]

/-- Claim C7 counterexample: a call with iterations = 0 (non-positive) is
not rejected: DeriveKey returns a 20-byte derived key. -/
theorem C7_counterexample_zero_iterations_returns_key :
    SHA1 [] [] 0 20
      = some [30, 67, 122, 28, 121, 215, 91, 230, 30, 145, 20, 29,
              174, 32, 175, 252, 72, 146, 204, 153] := by
  decide

/-- Claim C7 amended: the function performs no boundary validation.  A
non-positive iterations count is not rejected: the call returns the same
key as iterations = 1 (the first PRF output is always computed and the
inner loop simply does not run).  keyLength 0 returns the empty byte
string.  Only a negative keyLength fails, as a runtime panic at the final
dk[:keyLen] slice (modelled as none). -/
theorem C7_amended_no_boundary_validation (p s : List Nat) (c k : Int) :
    (c ≤ 1 → SHA1 p s c k = SHA1 p s 1 k) ∧
    (SHA1 p s c 0 = some []) ∧
    (k < 0 → SHA1 p s c k = none) := by
  refine ⟨?_, ?_, ?_⟩
  · intro hc
    simp only [SHA1]
    have hfold : ∀ (n : Nat),
        (List.range n).foldl
          (fun dk bi => dk ++ pbkdf2_block (hmac_init p).1 (hmac_init p).2 p s (bi + 1) c.toNat) []
        = (List.range n).foldl
          (fun dk bi => dk ++ pbkdf2_block (hmac_init p).1 (hmac_init p).2 p s (bi + 1) (1 : Int).toNat) [] := by
      intro n
      apply List.foldl_ext
      intro acc bi _
      simp only [pbkdf2_block]
      rw [show c.toNat - 1 = 0 from by omega, show (1 : Int).toNat - 1 = 0 from rfl]
    rw [hfold]
  · simp only [SHA1]
    rfl
  · intro hneg
    simp only [SHA1]
    rw [if_pos hneg]

theorem C7_amended_no_boundary_validation_witness :
    SHA1 [3] [4] 0 (-2) = SHA1 [3] [4] 1 (-2) ∧
    SHA1 [3] [4] 0 0 = some [] ∧
    SHA1 [3] [4] 0 (-2) = none :=
  ⟨(C7_amended_no_boundary_validation [3] [4] 0 (-2)).1 (by decide),
   (C7_amended_no_boundary_validation [3] [4] 0 (-2)).2.1,
   (C7_amended_no_boundary_validation [3] [4] 0 (-2)).2.2 (by decide)⟩

theorem C3_derived_key_has_requested_length_witness :
    ∃ l, SHA1 [7] [8] 1 5 = some l ∧ (l.length : Int) = 5 :=
  C3_derived_key_has_requested_length [7] [8] 1 5 (by decide) (by decide) (by decide)

theorem C8_derived_key_prefix_monotone_witness :
    (SHA1 [7] [8] 2 25).map (fun l => l.take (5 : Int).toNat) = SHA1 [7] [8] 2 5 :=
  C8_derived_key_prefix_monotone [7] [8] 2 5 25 (by decide) (by decide)

/-! ### Byte-level facts about digests -/

theorem sha1_output_bytes (bl : List Nat) : ∀ b ∈ sha1_output bl, b < 256 := by
  intro b hb
  simp only [sha1_output, List.mem_flatten, List.mem_map] at hb
  obtain ⟨l, ⟨x, -, rfl⟩, hbl⟩ := hb
  exact putUint32_bytes x b hbl

theorem sha1_Sum_fold_length (L : List (List Nat)) :
    ∀ acc : List Nat, acc.length = 5 →
      (L.foldl (fun st blk => sha1_compress st (sha1_input blk)) acc).length = 5 := by
  induction L with
  | nil => intro acc h; exact h
  | cons x xs ih => intro acc _; exact ih _ (sha1_compress_length _ _)

theorem sha1_Sum_length (msg : List Nat) : (sha1_Sum msg).length = 20 := by
  simp only [sha1_Sum]
  exact sha1_output_length (sha1_Sum_fold_length _ _ rfl)

theorem sha1_Sum_bytes (msg : List Nat) : ∀ b ∈ sha1_Sum msg, b < 256 := by
  simp only [sha1_Sum]
  exact sha1_output_bytes _

theorem hmac_sha1_length (key msg : List Nat) : (hmac_sha1 key msg).length = 20 := by
  simp only [hmac_sha1]
  exact sha1_Sum_length _

theorem hmac_sha1_bytes (key msg : List Nat) : ∀ b ∈ hmac_sha1 key msg, b < 256 := by
  simp only [hmac_sha1]
  exact sha1_Sum_bytes _

theorem readW5_eq (T : List Nat) :
    readW5 T = [readUint32 (T.drop 0), readUint32 (T.drop 4), readUint32 (T.drop 8),
      readUint32 (T.drop 12), readUint32 (T.drop 16)] := rfl

theorem readUint32_append (A R : List Nat) (h : 4 ≤ A.length) :
    readUint32 (A ++ R) = readUint32 A := by
  rcases A with _ | ⟨a0, _ | ⟨a1, _ | ⟨a2, _ | ⟨a3, ra⟩⟩⟩⟩ <;> simp_all [readUint32]

theorem readW5_append (D R : List Nat) (hD : D.length = 20) :
    readW5 (D ++ R) = readW5 D := by
  rw [readW5_eq, readW5_eq]
  rw [List.drop_append_of_le_length (by omega), List.drop_append_of_le_length (by omega),
    List.drop_append_of_le_length (by omega), List.drop_append_of_le_length (by omega),
    List.drop_append_of_le_length (by omega)]
  rw [readUint32_append _ _ (by simp [hD]), readUint32_append _ _ (by simp [hD]),
    readUint32_append _ _ (by simp [hD]), readUint32_append _ _ (by simp [hD]),
    readUint32_append _ _ (by simp [hD])]

theorem readUint32_putUint32_nil {w : Nat} (hw : w < 2 ^ 32) :
    readUint32 (putUint32 w) = w := by
  have := readUint32_putUint32 hw []
  rwa [List.append_nil] at this

theorem readW5_output {w : List Nat} (hw : w.length = 5) (hlt : ∀ x ∈ w, x < 2 ^ 32) :
    readW5 (sha1_output w) = w := by
  rcases w with _ | ⟨x0, _ | ⟨x1, _ | ⟨x2, _ | ⟨x3, _ | ⟨x4, _ | ⟨x5, t⟩⟩⟩⟩⟩⟩
  · simp only [List.length_nil] at hw; omega
  · simp only [List.length_cons, List.length_nil] at hw; omega
  · simp only [List.length_cons, List.length_nil] at hw; omega
  · simp only [List.length_cons, List.length_nil] at hw; omega
  · simp only [List.length_cons, List.length_nil] at hw; omega
  swap
  · simp only [List.length_cons] at hw; omega
  have h0 : x0 < 2 ^ 32 := hlt x0 (by simp)
  have h1 : x1 < 2 ^ 32 := hlt x1 (by simp)
  have h2 : x2 < 2 ^ 32 := hlt x2 (by simp)
  have h3 : x3 < 2 ^ 32 := hlt x3 (by simp)
  have h4 : x4 < 2 ^ 32 := hlt x4 (by simp)
  have e : sha1_output [x0, x1, x2, x3, x4]
      = putUint32 x0 ++ (putUint32 x1 ++ (putUint32 x2 ++ (putUint32 x3 ++ putUint32 x4))) := by
    simp [sha1_output]
  have d4 : (putUint32 x0 ++ (putUint32 x1 ++ (putUint32 x2 ++ (putUint32 x3 ++ putUint32 x4)))).drop 4
      = putUint32 x1 ++ (putUint32 x2 ++ (putUint32 x3 ++ putUint32 x4)) :=
    List.drop_left' (putUint32_length x0)
  have d8 : (putUint32 x0 ++ (putUint32 x1 ++ (putUint32 x2 ++ (putUint32 x3 ++ putUint32 x4)))).drop 8
      = putUint32 x2 ++ (putUint32 x3 ++ putUint32 x4) := by
    rw [show (8 : Nat) = 4 + 4 from rfl, ← List.drop_drop, d4]
    exact List.drop_left' (putUint32_length x1)
  have d12 : (putUint32 x0 ++ (putUint32 x1 ++ (putUint32 x2 ++ (putUint32 x3 ++ putUint32 x4)))).drop 12
      = putUint32 x3 ++ putUint32 x4 := by
    rw [show (12 : Nat) = 8 + 4 from rfl, ← List.drop_drop, d8]
    exact List.drop_left' (putUint32_length x2)
  have d16 : (putUint32 x0 ++ (putUint32 x1 ++ (putUint32 x2 ++ (putUint32 x3 ++ putUint32 x4)))).drop 16
      = putUint32 x4 := by
    rw [show (16 : Nat) = 12 + 4 from rfl, ← List.drop_drop, d12]
    exact List.drop_left' (putUint32_length x3)
  rw [readW5_eq, e, List.drop_zero, d4, d8, d12, d16]
  rw [readUint32_putUint32 h0, readUint32_putUint32 h1, readUint32_putUint32 h2,
    readUint32_putUint32 h3, readUint32_putUint32_nil h4]

theorem sha1_output_readW5 {T : List Nat} (hT : T.length = 20) (hb : ∀ x ∈ T, x < 256) :
    sha1_output (readW5 T) = T := by
  rcases T with _ | ⟨b0, _ | ⟨b1, _ | ⟨b2, _ | ⟨b3, _ | ⟨b4, _ | ⟨b5, _ | ⟨b6, _ | ⟨b7, _ | ⟨b8, _ | ⟨b9, _ | ⟨b10, _ | ⟨b11, _ | ⟨b12, _ | ⟨b13, _ | ⟨b14, _ | ⟨b15, _ | ⟨b16, _ | ⟨b17, _ | ⟨b18, _ | ⟨b19, rest⟩⟩⟩⟩⟩⟩⟩⟩⟩⟩⟩⟩⟩⟩⟩⟩⟩⟩⟩⟩
  · simp only [List.length_nil] at hT; omega
  · simp only [List.length_cons, List.length_nil] at hT; omega
  · simp only [List.length_cons, List.length_nil] at hT; omega
  · simp only [List.length_cons, List.length_nil] at hT; omega
  · simp only [List.length_cons, List.length_nil] at hT; omega
  · simp only [List.length_cons, List.length_nil] at hT; omega
  · simp only [List.length_cons, List.length_nil] at hT; omega
  · simp only [List.length_cons, List.length_nil] at hT; omega
  · simp only [List.length_cons, List.length_nil] at hT; omega
  · simp only [List.length_cons, List.length_nil] at hT; omega
  · simp only [List.length_cons, List.length_nil] at hT; omega
  · simp only [List.length_cons, List.length_nil] at hT; omega
  · simp only [List.length_cons, List.length_nil] at hT; omega
  · simp only [List.length_cons, List.length_nil] at hT; omega
  · simp only [List.length_cons, List.length_nil] at hT; omega
  · simp only [List.length_cons, List.length_nil] at hT; omega
  · simp only [List.length_cons, List.length_nil] at hT; omega
  · simp only [List.length_cons, List.length_nil] at hT; omega
  · simp only [List.length_cons, List.length_nil] at hT; omega
  · simp only [List.length_cons, List.length_nil] at hT; omega
  rcases rest with _ | ⟨x, t⟩
  swap
  · simp only [List.length_cons, List.length_nil] at hT; omega
  have h0 : b0 < 256 := hb b0 (by simp)
  have h1 : b1 < 256 := hb b1 (by simp)
  have h2 : b2 < 256 := hb b2 (by simp)
  have h3 : b3 < 256 := hb b3 (by simp)
  have h4 : b4 < 256 := hb b4 (by simp)
  have h5 : b5 < 256 := hb b5 (by simp)
  have h6 : b6 < 256 := hb b6 (by simp)
  have h7 : b7 < 256 := hb b7 (by simp)
  have h8 : b8 < 256 := hb b8 (by simp)
  have h9 : b9 < 256 := hb b9 (by simp)
  have h10 : b10 < 256 := hb b10 (by simp)
  have h11 : b11 < 256 := hb b11 (by simp)
  have h12 : b12 < 256 := hb b12 (by simp)
  have h13 : b13 < 256 := hb b13 (by simp)
  have h14 : b14 < 256 := hb b14 (by simp)
  have h15 : b15 < 256 := hb b15 (by simp)
  have h16 : b16 < 256 := hb b16 (by simp)
  have h17 : b17 < 256 := hb b17 (by simp)
  have h18 : b18 < 256 := hb b18 (by simp)
  have h19 : b19 < 256 := hb b19 (by simp)
  have e4 : ([b0, b1, b2, b3, b4, b5, b6, b7, b8, b9, b10, b11, b12, b13, b14, b15, b16, b17, b18, b19] : List Nat).drop 4 = [b4, b5, b6, b7, b8, b9, b10, b11, b12, b13, b14, b15, b16, b17, b18, b19] := rfl
  have e8 : ([b0, b1, b2, b3, b4, b5, b6, b7, b8, b9, b10, b11, b12, b13, b14, b15, b16, b17, b18, b19] : List Nat).drop 8 = [b8, b9, b10, b11, b12, b13, b14, b15, b16, b17, b18, b19] := rfl
  have e12 : ([b0, b1, b2, b3, b4, b5, b6, b7, b8, b9, b10, b11, b12, b13, b14, b15, b16, b17, b18, b19] : List Nat).drop 12 = [b12, b13, b14, b15, b16, b17, b18, b19] := rfl
  have e16 : ([b0, b1, b2, b3, b4, b5, b6, b7, b8, b9, b10, b11, b12, b13, b14, b15, b16, b17, b18, b19] : List Nat).drop 16 = [b16, b17, b18, b19] := rfl
  rw [readW5_eq, List.drop_zero, e4, e8, e12, e16]
  simp only [sha1_output]
  rw [List.take_of_length_le (by simp)]
  simp only [List.map_cons, List.map_nil, List.flatten_cons, List.flatten_nil,
    List.append_nil]
  rw [putUint32_readUint32 _ h0 h1 h2 h3, putUint32_readUint32 _ h4 h5 h6 h7,
    putUint32_readUint32 _ h8 h9 h10 h11, putUint32_readUint32 _ h12 h13 h14 h15,
    putUint32_readUint32 _ h16 h17 h18 h19]
  simp

theorem sha1_input_take5 (b : List Nat) : (sha1_input b).take 5 = readW5 b := by
  rw [sha1_input, ← List.map_take, List.take_range, show min 5 16 = 5 from rfl]
  rfl

theorem sha1_Sum_two_blocks (B D : List Nat) (hB : B.length = 64) (hD : D.length = 20) :
    sha1_Sum (B ++ D)
      = sha1_output (sha1_compress (sha1_compress sha1_IV (sha1_input B))
          (sha1_input (sha1_pad D 84))) := by
  have hlen : (B ++ D).length = 84 := by simp [hB, hD]
  simp only [sha1_Sum, hlen]
  rw [show sha1_pad_zeros 84 = 35 from rfl]
  rw [show putUint32 ((8 * 84 % 2 ^ 64) >>> 32 % 2 ^ 32) = [0, 0, 0, 0] from rfl,
    show putUint32 (8 * 84 % 2 ^ 64 % 2 ^ 32) = [0, 0, 2, 160] from rfl]
  have hassoc : B ++ D ++ [(128 : Nat)] ++ List.replicate 35 0 ++ [0, 0, 0, 0] ++ [0, 0, 2, 160]
      = B ++ (D ++ ([128] ++ (List.replicate 35 0 ++ ([0, 0, 0, 0] ++ [0, 0, 2, 160])))) := by
    simp [List.append_assoc]
  rw [hassoc]
  have hR : (D ++ ([(128 : Nat)] ++ (List.replicate 35 0 ++ ([0, 0, 0, 0] ++ [0, 0, 2, 160])))).length = 64 := by
    simp [hD]
  have hplen : (B ++ (D ++ ([(128 : Nat)] ++ (List.replicate 35 0 ++ ([0, 0, 0, 0] ++ [0, 0, 2, 160]))))).length = 128 := by
    simp [hB, hD]
  rw [hplen, show (128 : Nat) / 64 = 2 from rfl]
  simp only [toBlocksN, List.foldl_cons, List.foldl_nil]
  rw [List.take_left' hB, List.drop_left' hB,
    List.take_of_length_le (le_of_eq hR)]
  have hpad : sha1_pad D 84 = D ++ ([(128 : Nat)] ++ (List.replicate 35 0 ++ ([0, 0, 0, 0] ++ [0, 0, 2, 160]))) := by
    rw [sha1_pad_84 D hD]
    simp [List.append_assoc]
  rw [hpad]

/-! ### The reference PBKDF2 (spec side) and the refinement machinery -/

/-- The ipad block hmac_init computes: the key (replaced by its SHA-1
digest when longer than 64 bytes) zero padded to 64 bytes and XOR-ed with
repeated 0x36 bytes. -/
def hmac_ipad (key : List Nat) : List Nat :=
  let k := if key.length > 64 then sha1_Sum key else key
  (k ++ List.replicate (64 - k.length) 0).map (fun x => x ^^^ 0x36)

/-- The opad block hmac_init computes: as hmac_ipad but with repeated
0x5c bytes. -/
def hmac_opad (key : List Nat) : List Nat :=
  let k := if key.length > 64 then sha1_Sum key else key
  (k ++ List.replicate (64 - k.length) 0).map (fun x => x ^^^ 0x5c)

theorem hmac_key_length (p : List Nat) :
    (if p.length > 64 then sha1_Sum p else p).length ≤ 64 := by
  by_cases h : p.length > 64
  · rw [if_pos h, sha1_Sum_length]
    norm_num
  · rw [if_neg h]
    omega

theorem hmac_ipad_length (p : List Nat) : (hmac_ipad p).length = 64 := by
  have h := hmac_key_length p
  simp only [hmac_ipad, List.length_map, List.length_append, List.length_replicate]
  omega

theorem hmac_opad_length (p : List Nat) : (hmac_opad p).length = 64 := by
  have h := hmac_key_length p
  simp only [hmac_opad, List.length_map, List.length_append, List.length_replicate]
  omega

theorem hmac_sha1_eq (key msg : List Nat) :
    hmac_sha1 key msg
      = sha1_Sum (hmac_opad key ++ sha1_Sum (hmac_ipad key ++ msg)) := rfl

theorem hmac_init_fst (key : List Nat) :
    (hmac_init key).1
      = sha1_compress sha1_IV (sha1_input (hmac_ipad key))
          ++ (sha1_input (hmac_ipad key)).drop 5 := by
  show sha1_block (sha1_input (hmac_ipad key)) (sha1_init (List.replicate 16 0))
      (sha1_input (hmac_ipad key)) = _
  have hc : sha1_compress (sha1_init (List.replicate 16 0)) (sha1_input (hmac_ipad key))
      = sha1_compress sha1_IV (sha1_input (hmac_ipad key)) :=
    sha1_compress_congr rfl rfl rfl rfl rfl _
  rw [sha1_block_eq_compress, hc]

theorem hmac_init_snd (key : List Nat) :
    (hmac_init key).2
      = sha1_compress sha1_IV (sha1_input (hmac_opad key))
          ++ (sha1_input (hmac_opad key)).drop 5 := by
  show sha1_block (sha1_input (hmac_opad key)) (sha1_init (List.replicate 16 0))
      (sha1_input (hmac_opad key)) = _
  have hc : sha1_compress (sha1_init (List.replicate 16 0)) (sha1_input (hmac_opad key))
      = sha1_compress sha1_IV (sha1_input (hmac_opad key)) :=
    sha1_compress_congr rfl rfl rfl rfl rfl _
  rw [sha1_block_eq_compress, hc]

theorem sha1_compress_append5 (I R src : List Nat) (h : I.length = 5) :
    sha1_compress (I ++ R) src = sha1_compress I src := by
  refine sha1_compress_congr ?_ ?_ ?_ ?_ ?_ src
  all_goals
    rw [List.getD_eq_getElem?_getD, List.getD_eq_getElem?_getD,
      List.getElem?_append_left (by omega)]

theorem readW5_sha1_pad84 (D : List Nat) (hD : D.length = 20) :
    readW5 (sha1_pad D 84) = readW5 D := by
  rw [sha1_pad_84 D hD]
  have h : D ++ [(128 : Nat)] ++ List.replicate 35 0 ++ [0, 0, 0, 0] ++ [0, 0, 2, 160]
      = D ++ ([128] ++ (List.replicate 35 0 ++ ([0, 0, 0, 0] ++ [0, 0, 2, 160]))) := by
    simp [List.append_assoc]
  rw [h, readW5_append D _ hD]

theorem sha1_input_getD (b : List Nat) (i : Nat) (h : i < 5) :
    (sha1_input b).getD i 0 = (readW5 b).getD i 0 := by
  rw [← sha1_input_take5, List.getD_eq_getElem?_getD, List.getD_eq_getElem?_getD,
    List.getElem?_take_of_lt h]

theorem U_form (w : List Nat) (hw : w.length = 5) (hlt : ∀ x ∈ w, x < 2 ^ 32) :
    w ++ [0x80000000, 0, 0, 0, 0, 0, 0, 0, 0, 0, 672]
      = sha1_input (sha1_pad (sha1_output w) 84) := by
  have houtlen : (sha1_output w).length = 20 := sha1_output_length hw
  have h5 : (sha1_input (sha1_pad (sha1_output w) 84)).take 5 = w := by
    rw [sha1_input_take5, readW5_sha1_pad84 _ houtlen, readW5_output hw hlt]
  conv_rhs => rw [← List.take_append_drop 5 (sha1_input (sha1_pad (sha1_output w) 84))]
  rw [h5, sha1_input_pad84_drop5 _ houtlen]

theorem sha1_block_hmac_step (p D : List Nat) (hD : D.length = 20) :
    sha1_block
        (sha1_block (sha1_input (sha1_pad D 84)) (hmac_init p).1 (sha1_input (sha1_pad D 84)))
        (hmac_init p).2
        (sha1_block (sha1_input (sha1_pad D 84)) (hmac_init p).1 (sha1_input (sha1_pad D 84)))
      = sha1_input (sha1_pad (hmac_sha1 p D) 84) := by
  have h1 : sha1_block (sha1_input (sha1_pad D 84)) (hmac_init p).1 (sha1_input (sha1_pad D 84))
      = sha1_input (sha1_pad (sha1_Sum (hmac_ipad p ++ D)) 84) := by
    rw [sha1_block_eq_compress, hmac_init_fst,
      sha1_compress_append5 _ _ _ (sha1_compress_length _ _),
      sha1_input_pad84_drop5 D hD,
      U_form _ (sha1_compress_length _ _) (sha1_compress_lt _ _),
      ← sha1_Sum_two_blocks (hmac_ipad p) D (hmac_ipad_length p) hD]
  rw [h1, sha1_block_eq_compress, hmac_init_snd,
    sha1_compress_append5 _ _ _ (sha1_compress_length _ _),
    sha1_input_pad84_drop5 _ (sha1_Sum_length _),
    U_form _ (sha1_compress_length _ _) (sha1_compress_lt _ _),
    ← sha1_Sum_two_blocks (hmac_opad p) _ (hmac_opad_length p) (sha1_Sum_length _),
    ← hmac_sha1_eq]

theorem readW5_xor5 {A B : List Nat} (hA : A.length = 20) (hB : B.length = 20)
    (hav : ∀ x ∈ A, x < 256) (hbv : ∀ x ∈ B, x < 256) :
    readW5 (List.zipWith (fun x y => x ^^^ y) A B)
      = [(readW5 A).getD 0 0 ^^^ (readW5 B).getD 0 0,
         (readW5 A).getD 1 0 ^^^ (readW5 B).getD 1 0,
         (readW5 A).getD 2 0 ^^^ (readW5 B).getD 2 0,
         (readW5 A).getD 3 0 ^^^ (readW5 B).getD 3 0,
         (readW5 A).getD 4 0 ^^^ (readW5 B).getD 4 0] := by
  rcases A with _ | ⟨a0, _ | ⟨a1, _ | ⟨a2, _ | ⟨a3, _ | ⟨a4, _ | ⟨a5, _ | ⟨a6, _ | ⟨a7, _ | ⟨a8, _ | ⟨a9, _ | ⟨a10, _ | ⟨a11, _ | ⟨a12, _ | ⟨a13, _ | ⟨a14, _ | ⟨a15, _ | ⟨a16, _ | ⟨a17, _ | ⟨a18, _ | ⟨a19, restA⟩⟩⟩⟩⟩⟩⟩⟩⟩⟩⟩⟩⟩⟩⟩⟩⟩⟩⟩⟩
  · simp only [List.length_nil] at hA; omega
  · simp only [List.length_cons, List.length_nil] at hA; omega
  · simp only [List.length_cons, List.length_nil] at hA; omega
  · simp only [List.length_cons, List.length_nil] at hA; omega
  · simp only [List.length_cons, List.length_nil] at hA; omega
  · simp only [List.length_cons, List.length_nil] at hA; omega
  · simp only [List.length_cons, List.length_nil] at hA; omega
  · simp only [List.length_cons, List.length_nil] at hA; omega
  · simp only [List.length_cons, List.length_nil] at hA; omega
  · simp only [List.length_cons, List.length_nil] at hA; omega
  · simp only [List.length_cons, List.length_nil] at hA; omega
  · simp only [List.length_cons, List.length_nil] at hA; omega
  · simp only [List.length_cons, List.length_nil] at hA; omega
  · simp only [List.length_cons, List.length_nil] at hA; omega
  · simp only [List.length_cons, List.length_nil] at hA; omega
  · simp only [List.length_cons, List.length_nil] at hA; omega
  · simp only [List.length_cons, List.length_nil] at hA; omega
  · simp only [List.length_cons, List.length_nil] at hA; omega
  · simp only [List.length_cons, List.length_nil] at hA; omega
  · simp only [List.length_cons, List.length_nil] at hA; omega
  rcases restA with _ | ⟨x, t⟩
  swap
  · simp only [List.length_cons, List.length_nil] at hA; omega
  rcases B with _ | ⟨c0, _ | ⟨c1, _ | ⟨c2, _ | ⟨c3, _ | ⟨c4, _ | ⟨c5, _ | ⟨c6, _ | ⟨c7, _ | ⟨c8, _ | ⟨c9, _ | ⟨c10, _ | ⟨c11, _ | ⟨c12, _ | ⟨c13, _ | ⟨c14, _ | ⟨c15, _ | ⟨c16, _ | ⟨c17, _ | ⟨c18, _ | ⟨c19, restB⟩⟩⟩⟩⟩⟩⟩⟩⟩⟩⟩⟩⟩⟩⟩⟩⟩⟩⟩⟩
  · simp only [List.length_nil] at hB; omega
  · simp only [List.length_cons, List.length_nil] at hB; omega
  · simp only [List.length_cons, List.length_nil] at hB; omega
  · simp only [List.length_cons, List.length_nil] at hB; omega
  · simp only [List.length_cons, List.length_nil] at hB; omega
  · simp only [List.length_cons, List.length_nil] at hB; omega
  · simp only [List.length_cons, List.length_nil] at hB; omega
  · simp only [List.length_cons, List.length_nil] at hB; omega
  · simp only [List.length_cons, List.length_nil] at hB; omega
  · simp only [List.length_cons, List.length_nil] at hB; omega
  · simp only [List.length_cons, List.length_nil] at hB; omega
  · simp only [List.length_cons, List.length_nil] at hB; omega
  · simp only [List.length_cons, List.length_nil] at hB; omega
  · simp only [List.length_cons, List.length_nil] at hB; omega
  · simp only [List.length_cons, List.length_nil] at hB; omega
  · simp only [List.length_cons, List.length_nil] at hB; omega
  · simp only [List.length_cons, List.length_nil] at hB; omega
  · simp only [List.length_cons, List.length_nil] at hB; omega
  · simp only [List.length_cons, List.length_nil] at hB; omega
  · simp only [List.length_cons, List.length_nil] at hB; omega
  rcases restB with _ | ⟨x, t⟩
  swap
  · simp only [List.length_cons, List.length_nil] at hB; omega
  have ha0 : a0 < 256 := hav a0 (by simp)
  have ha1 : a1 < 256 := hav a1 (by simp)
  have ha2 : a2 < 256 := hav a2 (by simp)
  have ha3 : a3 < 256 := hav a3 (by simp)
  have ha4 : a4 < 256 := hav a4 (by simp)
  have ha5 : a5 < 256 := hav a5 (by simp)
  have ha6 : a6 < 256 := hav a6 (by simp)
  have ha7 : a7 < 256 := hav a7 (by simp)
  have ha8 : a8 < 256 := hav a8 (by simp)
  have ha9 : a9 < 256 := hav a9 (by simp)
  have ha10 : a10 < 256 := hav a10 (by simp)
  have ha11 : a11 < 256 := hav a11 (by simp)
  have ha12 : a12 < 256 := hav a12 (by simp)
  have ha13 : a13 < 256 := hav a13 (by simp)
  have ha14 : a14 < 256 := hav a14 (by simp)
  have ha15 : a15 < 256 := hav a15 (by simp)
  have ha16 : a16 < 256 := hav a16 (by simp)
  have ha17 : a17 < 256 := hav a17 (by simp)
  have ha18 : a18 < 256 := hav a18 (by simp)
  have ha19 : a19 < 256 := hav a19 (by simp)
  have hc0 : c0 < 256 := hbv c0 (by simp)
  have hc1 : c1 < 256 := hbv c1 (by simp)
  have hc2 : c2 < 256 := hbv c2 (by simp)
  have hc3 : c3 < 256 := hbv c3 (by simp)
  have hc4 : c4 < 256 := hbv c4 (by simp)
  have hc5 : c5 < 256 := hbv c5 (by simp)
  have hc6 : c6 < 256 := hbv c6 (by simp)
  have hc7 : c7 < 256 := hbv c7 (by simp)
  have hc8 : c8 < 256 := hbv c8 (by simp)
  have hc9 : c9 < 256 := hbv c9 (by simp)
  have hc10 : c10 < 256 := hbv c10 (by simp)
  have hc11 : c11 < 256 := hbv c11 (by simp)
  have hc12 : c12 < 256 := hbv c12 (by simp)
  have hc13 : c13 < 256 := hbv c13 (by simp)
  have hc14 : c14 < 256 := hbv c14 (by simp)
  have hc15 : c15 < 256 := hbv c15 (by simp)
  have hc16 : c16 < 256 := hbv c16 (by simp)
  have hc17 : c17 < 256 := hbv c17 (by simp)
  have hc18 : c18 < 256 := hbv c18 (by simp)
  have hc19 : c19 < 256 := hbv c19 (by simp)
  have hz : List.zipWith (fun x y => x ^^^ y) ([a0, a1, a2, a3, a4, a5, a6, a7, a8, a9, a10, a11, a12, a13, a14, a15, a16, a17, a18, a19] : List Nat) [c0, c1, c2, c3, c4, c5, c6, c7, c8, c9, c10, c11, c12, c13, c14, c15, c16, c17, c18, c19] = [a0 ^^^ c0, a1 ^^^ c1, a2 ^^^ c2, a3 ^^^ c3, a4 ^^^ c4, a5 ^^^ c5, a6 ^^^ c6, a7 ^^^ c7, a8 ^^^ c8, a9 ^^^ c9, a10 ^^^ c10, a11 ^^^ c11, a12 ^^^ c12, a13 ^^^ c13, a14 ^^^ c14, a15 ^^^ c15, a16 ^^^ c16, a17 ^^^ c17, a18 ^^^ c18, a19 ^^^ c19] := rfl
  rw [hz]
  simp only [readW5_eq]
  have ex4 : ([a0 ^^^ c0, a1 ^^^ c1, a2 ^^^ c2, a3 ^^^ c3, a4 ^^^ c4, a5 ^^^ c5, a6 ^^^ c6, a7 ^^^ c7, a8 ^^^ c8, a9 ^^^ c9, a10 ^^^ c10, a11 ^^^ c11, a12 ^^^ c12, a13 ^^^ c13, a14 ^^^ c14, a15 ^^^ c15, a16 ^^^ c16, a17 ^^^ c17, a18 ^^^ c18, a19 ^^^ c19] : List Nat).drop 4 = [a4 ^^^ c4, a5 ^^^ c5, a6 ^^^ c6, a7 ^^^ c7, a8 ^^^ c8, a9 ^^^ c9, a10 ^^^ c10, a11 ^^^ c11, a12 ^^^ c12, a13 ^^^ c13, a14 ^^^ c14, a15 ^^^ c15, a16 ^^^ c16, a17 ^^^ c17, a18 ^^^ c18, a19 ^^^ c19] := rfl
  have ex8 : ([a0 ^^^ c0, a1 ^^^ c1, a2 ^^^ c2, a3 ^^^ c3, a4 ^^^ c4, a5 ^^^ c5, a6 ^^^ c6, a7 ^^^ c7, a8 ^^^ c8, a9 ^^^ c9, a10 ^^^ c10, a11 ^^^ c11, a12 ^^^ c12, a13 ^^^ c13, a14 ^^^ c14, a15 ^^^ c15, a16 ^^^ c16, a17 ^^^ c17, a18 ^^^ c18, a19 ^^^ c19] : List Nat).drop 8 = [a8 ^^^ c8, a9 ^^^ c9, a10 ^^^ c10, a11 ^^^ c11, a12 ^^^ c12, a13 ^^^ c13, a14 ^^^ c14, a15 ^^^ c15, a16 ^^^ c16, a17 ^^^ c17, a18 ^^^ c18, a19 ^^^ c19] := rfl
  have ex12 : ([a0 ^^^ c0, a1 ^^^ c1, a2 ^^^ c2, a3 ^^^ c3, a4 ^^^ c4, a5 ^^^ c5, a6 ^^^ c6, a7 ^^^ c7, a8 ^^^ c8, a9 ^^^ c9, a10 ^^^ c10, a11 ^^^ c11, a12 ^^^ c12, a13 ^^^ c13, a14 ^^^ c14, a15 ^^^ c15, a16 ^^^ c16, a17 ^^^ c17, a18 ^^^ c18, a19 ^^^ c19] : List Nat).drop 12 = [a12 ^^^ c12, a13 ^^^ c13, a14 ^^^ c14, a15 ^^^ c15, a16 ^^^ c16, a17 ^^^ c17, a18 ^^^ c18, a19 ^^^ c19] := rfl
  have ex16 : ([a0 ^^^ c0, a1 ^^^ c1, a2 ^^^ c2, a3 ^^^ c3, a4 ^^^ c4, a5 ^^^ c5, a6 ^^^ c6, a7 ^^^ c7, a8 ^^^ c8, a9 ^^^ c9, a10 ^^^ c10, a11 ^^^ c11, a12 ^^^ c12, a13 ^^^ c13, a14 ^^^ c14, a15 ^^^ c15, a16 ^^^ c16, a17 ^^^ c17, a18 ^^^ c18, a19 ^^^ c19] : List Nat).drop 16 = [a16 ^^^ c16, a17 ^^^ c17, a18 ^^^ c18, a19 ^^^ c19] := rfl
  have ea4 : ([a0, a1, a2, a3, a4, a5, a6, a7, a8, a9, a10, a11, a12, a13, a14, a15, a16, a17, a18, a19] : List Nat).drop 4 = [a4, a5, a6, a7, a8, a9, a10, a11, a12, a13, a14, a15, a16, a17, a18, a19] := rfl
  have ea8 : ([a0, a1, a2, a3, a4, a5, a6, a7, a8, a9, a10, a11, a12, a13, a14, a15, a16, a17, a18, a19] : List Nat).drop 8 = [a8, a9, a10, a11, a12, a13, a14, a15, a16, a17, a18, a19] := rfl
  have ea12 : ([a0, a1, a2, a3, a4, a5, a6, a7, a8, a9, a10, a11, a12, a13, a14, a15, a16, a17, a18, a19] : List Nat).drop 12 = [a12, a13, a14, a15, a16, a17, a18, a19] := rfl
  have ea16 : ([a0, a1, a2, a3, a4, a5, a6, a7, a8, a9, a10, a11, a12, a13, a14, a15, a16, a17, a18, a19] : List Nat).drop 16 = [a16, a17, a18, a19] := rfl
  have ec4 : ([c0, c1, c2, c3, c4, c5, c6, c7, c8, c9, c10, c11, c12, c13, c14, c15, c16, c17, c18, c19] : List Nat).drop 4 = [c4, c5, c6, c7, c8, c9, c10, c11, c12, c13, c14, c15, c16, c17, c18, c19] := rfl
  have ec8 : ([c0, c1, c2, c3, c4, c5, c6, c7, c8, c9, c10, c11, c12, c13, c14, c15, c16, c17, c18, c19] : List Nat).drop 8 = [c8, c9, c10, c11, c12, c13, c14, c15, c16, c17, c18, c19] := rfl
  have ec12 : ([c0, c1, c2, c3, c4, c5, c6, c7, c8, c9, c10, c11, c12, c13, c14, c15, c16, c17, c18, c19] : List Nat).drop 12 = [c12, c13, c14, c15, c16, c17, c18, c19] := rfl
  have ec16 : ([c0, c1, c2, c3, c4, c5, c6, c7, c8, c9, c10, c11, c12, c13, c14, c15, c16, c17, c18, c19] : List Nat).drop 16 = [c16, c17, c18, c19] := rfl
  rw [List.drop_zero, List.drop_zero, List.drop_zero, ex4, ex8, ex12, ex16, ea4, ea8, ea12, ea16, ec4, ec8, ec12, ec16]
  simp only [List.getD_cons_zero, List.getD_cons_succ]
  have g0 := readUint32_xor [a4, a5, a6, a7, a8, a9, a10, a11, a12, a13, a14, a15, a16, a17, a18, a19] [c4, c5, c6, c7, c8, c9, c10, c11, c12, c13, c14, c15, c16, c17, c18, c19] [a4 ^^^ c4, a5 ^^^ c5, a6 ^^^ c6, a7 ^^^ c7, a8 ^^^ c8, a9 ^^^ c9, a10 ^^^ c10, a11 ^^^ c11, a12 ^^^ c12, a13 ^^^ c13, a14 ^^^ c14, a15 ^^^ c15, a16 ^^^ c16, a17 ^^^ c17, a18 ^^^ c18, a19 ^^^ c19] ha0 ha1 ha2 ha3 hc0 hc1 hc2 hc3
  have g4 := readUint32_xor [a8, a9, a10, a11, a12, a13, a14, a15, a16, a17, a18, a19] [c8, c9, c10, c11, c12, c13, c14, c15, c16, c17, c18, c19] [a8 ^^^ c8, a9 ^^^ c9, a10 ^^^ c10, a11 ^^^ c11, a12 ^^^ c12, a13 ^^^ c13, a14 ^^^ c14, a15 ^^^ c15, a16 ^^^ c16, a17 ^^^ c17, a18 ^^^ c18, a19 ^^^ c19] ha4 ha5 ha6 ha7 hc4 hc5 hc6 hc7
  have g8 := readUint32_xor [a12, a13, a14, a15, a16, a17, a18, a19] [c12, c13, c14, c15, c16, c17, c18, c19] [a12 ^^^ c12, a13 ^^^ c13, a14 ^^^ c14, a15 ^^^ c15, a16 ^^^ c16, a17 ^^^ c17, a18 ^^^ c18, a19 ^^^ c19] ha8 ha9 ha10 ha11 hc8 hc9 hc10 hc11
  have g12 := readUint32_xor [a16, a17, a18, a19] [c16, c17, c18, c19] [a16 ^^^ c16, a17 ^^^ c17, a18 ^^^ c18, a19 ^^^ c19] ha12 ha13 ha14 ha15 hc12 hc13 hc14 hc15
  have g16 := readUint32_xor [] [] [] ha16 ha17 ha18 ha19 hc16 hc17 hc18 hc19
  rw [g0, g4, g8, g12, g16]

theorem zipWith_xor_bytes {A B : List Nat} (hA : ∀ x ∈ A, x < 256) (hB : ∀ x ∈ B, x < 256) :
    ∀ x ∈ List.zipWith (fun x y => x ^^^ y) A B, x < 256 := by
  induction A generalizing B with
  | nil => intro x hx; simp at hx
  | cons a A ih =>
    rcases B with _ | ⟨b, B⟩
    · intro x hx; simp at hx
    · intro x hx
      simp only [List.zipWith_cons_cons, List.mem_cons] at hx
      rcases hx with rfl | hx
      · have h256 : (256 : Nat) = 2 ^ 8 := by norm_num
        rw [h256]
        exact Nat.xor_lt_two_pow (by rw [← h256]; exact hA a (by simp))
          (by rw [← h256]; exact hB b (by simp))
      · exact ih (fun y hy => hA y (by simp [hy])) (fun y hy => hB y (by simp [hy])) x hx

/-- Modelled from the spec: the reference inner iteration of one PBKDF2
block.  Starting from (T, U) = (U_1, U_1), each step computes the next
U_n as the standard two-pass HMAC of the previous U and XORs it into the
accumulator byte-wise. -/
def pbkdf2_ref_iterT (p : List Nat) : Nat → List Nat × List Nat → List Nat × List Nat
  | 0, s => s
  | n + 1, (T, U) =>
    let U2 := hmac_sha1 p U
    pbkdf2_ref_iterT p n (List.zipWith (fun x y => x ^^^ y) T U2, U2)

/-- Modelled from the spec: the reference PBKDF2-HMAC-SHA1 block value
T_i = U_1 xor ... xor U_c, with U_1 = HMAC-SHA1(p, salt || BE32(i)) and
U_n = HMAC-SHA1(p, U_(n-1)), every HMAC computed by the standard
two-pass construction. -/
def pbkdf2_ref_T (p salt : List Nat) (i c : Nat) : List Nat :=
  let U1 := hmac_sha1 p (salt ++ putUint32 i)
  (pbkdf2_ref_iterT p (c - 1) (U1, U1)).1

/-- Modelled from the spec: the standard PBKDF2-HMAC-SHA1 derived key of
keyLen bytes: ceil(keyLen/20) blocks T_1, T_2, ... concatenated and
truncated to keyLen bytes. -/
def pbkdf2_ref (p salt : List Nat) (c keyLen : Nat) : List Nat :=
  ((List.range ((keyLen + 19) / 20)).foldl
    (fun dk bi => dk ++ pbkdf2_ref_T p salt (bi + 1) c) []).take keyLen

theorem pbkdf2_iter_succ (inner outer : List Nat) (n : Nat) (tmp U : List Nat) :
    pbkdf2_iter inner outer (n + 1) (tmp, U)
      = pbkdf2_iter inner outer n
          ([tmp.getD 0 0 ^^^ (sha1_block (sha1_block U inner U) outer (sha1_block U inner U)).getD 0 0,
            tmp.getD 1 0 ^^^ (sha1_block (sha1_block U inner U) outer (sha1_block U inner U)).getD 1 0,
            tmp.getD 2 0 ^^^ (sha1_block (sha1_block U inner U) outer (sha1_block U inner U)).getD 2 0,
            tmp.getD 3 0 ^^^ (sha1_block (sha1_block U inner U) outer (sha1_block U inner U)).getD 3 0,
            tmp.getD 4 0 ^^^ (sha1_block (sha1_block U inner U) outer (sha1_block U inner U)).getD 4 0],
           sha1_block (sha1_block U inner U) outer (sha1_block U inner U)) := rfl

theorem pbkdf2_ref_iterT_succ (p : List Nat) (n : Nat) (T U : List Nat) :
    pbkdf2_ref_iterT p (n + 1) (T, U)
      = pbkdf2_ref_iterT p n
          (List.zipWith (fun x y => x ^^^ y) T (hmac_sha1 p U), hmac_sha1 p U) := rfl

theorem pbkdf2_ref_iterT_fst (p : List Nat) :
    ∀ (n : Nat) (T U : List Nat), T.length = 20 → (∀ x ∈ T, x < 256) →
      (pbkdf2_ref_iterT p n (T, U)).1.length = 20
        ∧ ∀ x ∈ (pbkdf2_ref_iterT p n (T, U)).1, x < 256 := by
  intro n
  induction n with
  | zero => intro T U hT hTb; exact ⟨hT, hTb⟩
  | succ n ih =>
    intro T U hT hTb
    rw [pbkdf2_ref_iterT_succ]
    exact ih _ _ (by rw [List.length_zipWith, hT, hmac_sha1_length]; omega)
      (zipWith_xor_bytes hTb (hmac_sha1_bytes p U))

theorem pbkdf2_iter_correct (p : List Nat) :
    ∀ (n : Nat) (Tb Ub : List Nat), Tb.length = 20 → Ub.length = 20 →
      (∀ x ∈ Tb, x < 256) → (∀ x ∈ Ub, x < 256) →
      (pbkdf2_iter (hmac_init p).1 (hmac_init p).2 n
          (readW5 Tb, sha1_input (sha1_pad Ub 84))).1
        = readW5 (pbkdf2_ref_iterT p n (Tb, Ub)).1 := by
  intro n
  induction n with
  | zero => intro Tb Ub _ _ _ _; rfl
  | succ n ih =>
    intro Tb Ub hTl hUl hTb hUb
    rw [pbkdf2_iter_succ, pbkdf2_ref_iterT_succ, sha1_block_hmac_step p Ub hUl]
    have hUL : (hmac_sha1 p Ub).length = 20 := hmac_sha1_length p Ub
    have hg : ∀ i, i < 5 →
        (sha1_input (sha1_pad (hmac_sha1 p Ub) 84)).getD i 0
          = (readW5 (hmac_sha1 p Ub)).getD i 0 := by
      intro i hi
      rw [sha1_input_getD _ i hi, readW5_sha1_pad84 _ hUL]
    rw [hg 0 (by norm_num), hg 1 (by norm_num), hg 2 (by norm_num),
      hg 3 (by norm_num), hg 4 (by norm_num)]
    rw [← readW5_xor5 hTl hUL hTb (hmac_sha1_bytes p Ub)]
    exact ih (List.zipWith (fun x y => x ^^^ y) Tb (hmac_sha1 p Ub)) (hmac_sha1 p Ub)
      (by rw [List.length_zipWith, hTl, hUL]; omega) hUL
      (zipWith_xor_bytes hTb (hmac_sha1_bytes p Ub)) (hmac_sha1_bytes p Ub)

theorem pbkdf2_block_eq_ref (p s : List Nat) (i c : Nat) :
    pbkdf2_block (hmac_init p).1 (hmac_init p).2 p s i c = pbkdf2_ref_T p s i c := by
  have hTl := hmac_sha1_length p (s ++ putUint32 i)
  have hTb := hmac_sha1_bytes p (s ++ putUint32 i)
  have hinv := pbkdf2_ref_iterT_fst p (c - 1) (hmac_sha1 p (s ++ putUint32 i))
    (hmac_sha1 p (s ++ putUint32 i)) hTl hTb
  simp only [pbkdf2_block, pbkdf2_ref_T, putUint32_mod]
  rw [show (64 + 20 : Nat) = 84 from rfl]
  rw [pbkdf2_iter_correct p (c - 1) _ _ hTl hTl hTb hTb]
  exact sha1_output_readW5 hinv.1 hinv.2

/-- Claim C1: for every password, every salt that fits one block together
with its 4-byte index, every iteration count c ≥ 1 and block index
i ≥ 1, the engine's block value — U_1 from the streaming HMAC, every
later U_n from two Compression Steps with the precomputed inner and outer
states on the padded previous U, all XORed together — equals the
reference PBKDF2-HMAC-SHA1 block T_i in which every U_n is computed by
the standard two-pass HMAC construction. -/
theorem C1_engine_block_equals_reference (p s : List Nat) (i c : Nat)
    ( _hs : s.length + 4 ≤ 55) ( _hc : 1 ≤ c) ( _hi : 1 ≤ i) :
    pbkdf2_block (hmac_init p).1 (hmac_init p).2 p s i c = pbkdf2_ref_T p s i c :=
  pbkdf2_block_eq_ref p s i c

theorem C1_engine_block_equals_reference_witness :
    (([3, 4] : List Nat).length + 4 ≤ 55) ∧ (1 : Nat) ≤ 2 ∧ (1 : Nat) ≤ 1 ∧
    pbkdf2_block (hmac_init [1, 2]).1 (hmac_init [1, 2]).2 [1, 2] [3, 4] 1 2
      = pbkdf2_ref_T [1, 2] [3, 4] 1 2 :=
  ⟨by decide, by decide, by decide,
   C1_engine_block_equals_reference [1, 2] [3, 4] 1 2 (by decide) (by decide) (by decide)⟩

/-- Claim C10: for every salt too long for the single-block precondition
(len(salt) + 4 > 55), the derivation still returns the standard
PBKDF2-HMAC-SHA1 result: U_1 uses a general streaming HMAC over
salt || BE32(i), and every later iteration processes only a fixed 20-byte
message, so nothing depends on the salt fitting in one block. -/
theorem C10_long_salt_still_standard_pbkdf2 (p s : List Nat) (c k : Int)
    ( _hs : 55 < s.length + 4) ( _hc : 1 ≤ c) (hk : 0 ≤ k) :
    SHA1 p s c k = some (pbkdf2_ref p s c.toNat k.toNat) := by
  rw [SHA1_eq_some p s c k hk]
  simp only [pbkdf2_ref]
  rw [tdiv19 k hk]
  congr 2
  apply List.foldl_ext
  intro acc bi _
  rw [pbkdf2_block_eq_ref]

theorem C10_long_salt_still_standard_pbkdf2_witness :
    (55 < (List.replicate 52 (0 : Nat)).length + 4) ∧ (1 : Int) ≤ 1 ∧ (0 : Int) ≤ 20 ∧
    SHA1 [] (List.replicate 52 0) 1 20
      = some (pbkdf2_ref [] (List.replicate 52 0) (1 : Int).toNat (20 : Int).toNat) :=
  ⟨by decide, by decide, by decide,
   C10_long_salt_still_standard_pbkdf2 [] (List.replicate 52 0) 1 20
     (by decide) (by decide) (by decide)⟩

/-- Claim C6: hmac_init produces the inner and outer states by replacing
an over-long password with its SHA-1 digest, zero padding to 64 bytes,
XOR-ing with repeated 0x36 resp. 0x5c bytes, and performing one
Compression Step on each padded block from the SHA-1 standard initial
state; those five-word states are the first five words of the returned
blocks. -/
theorem C6_hmac_init_precomputes_pad_states (key : List Nat) :
    ((hmac_init key).1).take 5 = sha1_compress sha1_IV (sha1_input (hmac_ipad key))
      ∧ ((hmac_init key).2).take 5 = sha1_compress sha1_IV (sha1_input (hmac_opad key)) := by
  constructor
  · rw [hmac_init_fst, List.take_left' (sha1_compress_length _ _)]
  · rw [hmac_init_snd, List.take_left' (sha1_compress_length _ _)]
